import Mathlib

/-!
Verification of the attestation-threshold filtering subsystem of the
`app-sdk` repository.

The Go sources are shallowly embedded: Go strings are modelled as `String`
(lists of runes; all inputs of interest are ASCII, where Go's byte indexing
and rune indexing coincide), Go slices as `List`, Go maps as association
lists with explicit insertion semantics, and the external DefraDB store as a
list of attestation records together with the documented semantics of the
GraphQL `_in` filter.  Fallible Go functions return `Except`.
-/

namespace AppSdk

/-- Whitespace set of Go's `strings.TrimSpace` restricted to ASCII
(`unicode.IsSpace` on ASCII bytes): space, \t, \n, \v, \f, \r. -/
def goIsSpace (c : Char) : Bool :=
  c == ' ' || c == '\t' || c == '\n' || c == '\x0b' || c == '\x0c' || c == '\r'

/-- Whitespace set used inside the scan loop of
`extractCollectionNameFromQuery` (source checks only these four). -/
def loopWS (c : Char) : Bool :=
  c == ' ' || c == '\t' || c == '\n' || c == '\r'

/-- Go `r >= 'a' && r <= 'z' || r >= 'A' && r <= 'Z'`. -/
def isAsciiLetter (c : Char) : Bool :=
  ('a'.toNat ≤ c.toNat && c.toNat ≤ 'z'.toNat)
    || ('A'.toNat ≤ c.toNat && c.toNat ≤ 'Z'.toNat)

/-- Go `r >= '0' && r <= '9'`. -/
def isDigitChar (c : Char) : Bool :=
  '0'.toNat ≤ c.toNat && c.toNat ≤ '9'.toNat

/-- Characters allowed to start an identifier in the scan loop
(letter or underscore). -/
def isIdentStart (c : Char) : Bool :=
  isAsciiLetter c || c == '_'

/-- Characters allowed inside an identifier in the scan loop
(letter, digit or underscore). -/
def isIdentChar (c : Char) : Bool :=
  isAsciiLetter c || isDigitChar c || c == '_'

/-- Go `strings.TrimSpace` on a rune list: drop whitespace from both ends. -/
def trimSpace (l : List Char) : List Char :=
  ((l.dropWhile goIsSpace).reverse.dropWhile goIsSpace).reverse

/-- Substring test (`strings.Contains`): `pat` occurs contiguously in `l`. -/
def hasSub (l pat : List Char) : Bool :=
  match l with
  | [] => pat.isEmpty
  | _ :: rest => pat.isPrefixOf l || hasSub rest pat

/-- Substring containment on `String`s, used to state the message-content
requirements of the error taxonomy. -/
def containsPhrase (s pat : String) : Bool :=
  hasSub s.toList pat.toList

/-- Error kinds of `extractCollectionNameFromQuery` (source returns
`fmt.Errorf` values; the three distinct messages are modelled as kinds). -/
inductive ExtractErr where
  | emptyQuery
  | noOpeningBrace
  | noIdentifierFound
deriving DecidableEq, Repr

/-- Go messages attached to each `ExtractErr` kind in the source. -/
def extractErrMsg : ExtractErr → String
  | .emptyQuery => "query string is empty"
  | .noOpeningBrace => "no opening brace found in query"
  | .noIdentifierFound => "could not extract collection name from query"

/-- Scan loop of `extractCollectionNameFromQuery` (source lines 163-202).
`full` is the (unchanging) content string used by the source's
`strings.Contains(content[:strings.IndexRune(content, r)], ":")` check;
the remaining arguments are the loop state: the unread input, the
accumulated name, `inIdentifier` and `afterColon`. -/
def scanName (full : List Char) : List Char → List Char → Bool → Bool → List Char
  | [], acc, _, _ => acc
  | r :: rest, acc, inIdent, afterColon =>
    if r == ':' then
      scanName full rest [] false true
    else if inIdent then
      if isIdentChar r then scanName full rest (acc ++ [r]) true afterColon
      else acc
    else
      if loopWS r then scanName full rest acc false afterColon
      else if isIdentStart r then
        if afterColon || !(hasSub (full.take (full.findIdx (· == r))) [':']) then
          scanName full rest (acc ++ [r]) true afterColon
        else scanName full rest acc false afterColon
      else if r == '\x7b' then acc
      else scanName full rest acc false afterColon

/-- Position of the opening brace (source lines 125-151): after a leading
operation keyword (checked case-insensitively) the brace is searched after
the keyword, otherwise anywhere.  `none` models Go's `-1`. -/
def openBraceIdx (q : List Char) : Option Nat :=
  let ql := q.map Char.toLower
  if "query ".toList.isPrefixOf ql then
    ((q.drop 6).findIdx? (· == '\x7b')).map (· + 6)
  else if "mutation ".toList.isPrefixOf ql then
    ((q.drop 9).findIdx? (· == '\x7b')).map (· + 9)
  else if "subscription ".toList.isPrefixOf ql then
    ((q.drop 12).findIdx? (· == '\x7b')).map (· + 12)
  else
    q.findIdx? (· == '\x7b')

/-- Embedding of `extractCollectionNameFromQuery` (attestation filter source
lines 116-210): empty-string check, trim, brace search, scan loop. -/
def extractCollectionNameFromQuery (query : String) : Except ExtractErr String :=
  if query = "" then .error .emptyQuery
  else
    let q := trimSpace query.toList
    match openBraceIdx q with
    | none => .error .noOpeningBrace
    | some i =>
      let content := trimSpace (q.drop (i + 1))
      let name := trimSpace (scanName content content [] false false)
      if name.isEmpty then .error .noIdentifierFound
      else .ok (String.mk name)


/-! ## Limit utilities (spec §4.1)

`hasLimitParameter` and `extractLimitValue` are exercised by
`TestHasLimitParameter` / `TestExtractLimitValue` but their implementation
is not among the provided sources; they are modelled from the spec. -/

/-- Token boundary before `limit` per the spec: preceded by `(`, `,` or
whitespace (`none` = start of string). -/
def limitBoundary : Option Char → Bool
  | none => true
  | some c => c == '(' || c == ',' || loopWS c

/-- Modelled from the spec: case-insensitive scan for a `limit` token at a
token boundary (the implementation of `hasLimitParameter` /
`extractLimitValue` is not under the provided sources, only their tests).
Returns the input remaining after the first such token. -/
def findAfterLimit (prev : Option Char) : List Char → Option (List Char)
  | [] => none
  | c :: rest =>
    if limitBoundary prev && "limit".toList.isPrefixOf ((c :: rest).map Char.toLower) then
      some ((c :: rest).drop 5)
    else findAfterLimit (some c) rest

/-- Modelled from the spec: after the `limit` token, an optional run of
whitespace followed by `:` (whitespace around the colon is allowed). -/
def afterLimitColon (l : List Char) : Option (List Char) :=
  match l.dropWhile loopWS with
  | ':' :: rest => some rest
  | _ => none

/-- Modelled from the spec: `hasLimitParameter(query)`, a case-insensitive
scan for a `limit:` key at a token boundary. -/
def hasLimitParameter (query : String) : Bool :=
  ((findAfterLimit none query.toList).bind afterLimitColon).isSome

/-- Modelled from the spec: `extractLimitValue(query)` locates the `limit:`
token and parses the immediately following integer literal; `none` models
`found = false` (key absent, or value missing/non-numeric). -/
def extractLimitValue (query : String) : Option Nat :=
  match (findAfterLimit none query.toList).bind afterLimitColon with
  | none => none
  | some rest =>
    let ds := (rest.dropWhile loopWS).takeWhile isDigitChar
    if ds.isEmpty then none
    else some (ds.foldl (fun n c => n * 10 + (c.toNat - '0'.toNat)) 0)


/-! ## Data model -/

/-- The shape returned by the attestation-record query (attestation.go
lines 37-41): attested document id, source document id, CID list. -/
structure AttestationRecord where
  attestedDocId : String
  sourceDocId : String
  cids : List String
deriving DecidableEq, Repr

/-- A caller-supplied document: the filter only requires a string `DocID`
field (plus arbitrary further payload, here one `name` field mirroring the
tests' `TestDocument`). -/
structure Document where
  docID : String
  name : String
deriving DecidableEq, Repr

/-- Go zero value of `Document` (what indexing a Go map at a missing key
yields). -/
def defaultDocument : Document := ⟨"", ""⟩

/-- Insertion into a Go map modelled as an association list: overwriting an
existing key keeps its position, a new key is appended. -/
def insertAssoc (m : List (String × Document)) (k : String) (v : Document) :
    List (String × Document) :=
  if m.any (fun p => p.1 == k) then
    m.map (fun p => if p.1 == k then (k, v) else p)
  else m ++ [(k, v)]

/-- Lookup in the association-list model of a Go map. -/
def lookupAssoc (m : List (String × Document)) (k : String) : Option Document :=
  (m.find? (fun p => p.1 == k)).map (·.2)

/-- The `documentsById` map built by the filter (source lines 21-28):
keyed by `DocID`, later duplicates overwrite earlier ones. -/
def documentsById (response : List Document) : List (String × Document) :=
  response.foldl (fun m d => insertAssoc m d.docID d) []

/-- Semantics of the store query issued with an
`filter: {attested_doc: {_in: [ids]}}` clause: the external DefraDB store
(modelled as the record list of the view's attestation collection) returns
exactly the records whose `attested_doc` is among the ids. -/
def queryAttestationRecords (store : List AttestationRecord) (ids : List String) :
    List AttestationRecord :=
  store.filter (fun r => ids.contains r.attestedDocId)

/-- Go map-as-set insertion of one CID (`docIDToCIDSet[docID][cid] =
struct{}{}`): append if not already present. -/
def insertCID (s : List String) (c : String) : List String :=
  if s.contains c then s else s ++ [c]

/-- Adding all CIDs of one record to a document's CID set (source
lines 68-70). -/
def addCIDs (s : List String) (cs : List String) : List String :=
  cs.foldl insertCID s

/-- The CID set accumulated for one document id by the counting loop
(source lines 57-71): union of the CID lists of all records whose
`AttestedDocId` matches. -/
def cidSet (records : List AttestationRecord) (d : String) : List String :=
  records.foldl (fun s r => if r.attestedDocId == d then addCIDs s r.cids else s) []

/-- `attestationCount` for one document id: size of its accumulated CID set
(source line 76). -/
def attestationCount (records : List AttestationRecord) (d : String) : Nat :=
  (cidSet records d).length

/-- Reference characterisation of the attestation count: cardinality of the
union of the CID lists over matching records (stated with `dedup`). -/
def specCount (records : List AttestationRecord) (d : String) : Nat :=
  (((records.filter (fun r => r.attestedDocId == d)).flatMap (fun r => r.cids)).dedup).length

/-- Embedding of `filterMinimumIndexerAttestations` (source lines 16-83):
threshold-0 fast path, `documentsById`, view-name extraction, store query,
unique-CID counting, threshold filter.  The final Go loop ranges over the
`docIDToCIDSet` map; its keys are the `AttestedDocId`s occurring in the
returned records (modelled in one deterministic order — the claims proved
below are order-insensitive). -/
def filterMinimumIndexerAttestations (response : List Document)
    (minimumAttestationThreshold : Nat) (queryUsed : String)
    (store : List AttestationRecord) : Except String (List Document) :=
  if minimumAttestationThreshold = 0 then .ok response
  else
    let byId := documentsById response
    match extractCollectionNameFromQuery queryUsed with
    | .error e =>
      .error ("error extracting view name from query " ++ queryUsed ++ ": " ++ extractErrMsg e)
    | .ok _viewName =>
      let ids := byId.map (fun p => p.1)
      let records := queryAttestationRecords store ids
      let keys := (records.map (fun r => r.attestedDocId)).dedup
      .ok ((keys.filter (fun k => minimumAttestationThreshold ≤ attestationCount records k)).map
        (fun k => (lookupAssoc byId k).getD defaultDocument))

/-- Number of store queries issued by `filterMinimumIndexerAttestations`,
following its control flow: none on the threshold-0 fast path, none when
view-name extraction fails, one otherwise. -/
def filterStoreQueriesIssued (minimumAttestationThreshold : Nat) (queryUsed : String) : Nat :=
  if minimumAttestationThreshold = 0 then 0
  else
    match extractCollectionNameFromQuery queryUsed with
    | .error _ => 0
    | .ok _ => 1

/-- The GraphQL query string built by `GetAttestationRecords`
(attestation.go lines 60-73), with the quoted, comma-joined id list
substituted into the `_in` filter. -/
def buildAttestationInQuery (associatedViewName : String) (viewDocIds : List String) : String :=
  let inList := String.intercalate ", " (viewDocIds.map (fun id => "\"" ++ id ++ "\""))
  "query \x7b\n        AttestationRecord_" ++ associatedViewName
    ++ " (filter: \x7battested_doc: \x7b_in: [" ++ inList
    ++ "]\x7d\x7d) \x7b\n            attested_doc\n            source_doc\n            CIDs\n        \x7d\n    \x7d"

/-- Result handling of `GetAttestationRecords` (attestation.go lines 74-81)
given the outcome of the underlying `QueryArray` call: execution failures
are wrapped, an empty record list becomes an error, anything else is
returned as-is. -/
def getAttestationRecordsFrom (query : String)
    (queryResult : Except String (List AttestationRecord)) :
    Except String (List AttestationRecord) :=
  match queryResult with
  | .error e => .error ("Error fetching attestation record: " ++ e)
  | .ok records =>
    if records.length = 0 then
      .error ("No attestation records found with query: " ++ query)
    else .ok records

/-- Embedding of `GetAttestationRecords` (attestation.go lines 59-82)
against a store in which the query succeeds with the `_in`-filtered
records. -/
def GetAttestationRecords (store : List AttestationRecord)
    (associatedViewName : String) (viewDocIds : List String) :
    Except String (List AttestationRecord) :=
  getAttestationRecordsFrom (buildAttestationInQuery associatedViewName viewDocIds)
    (.ok (queryAttestationRecords store viewDocIds))

/-- Number of store queries issued by `GetAttestationRecords`: the source
builds and issues the query unconditionally (no short-circuit for an empty
id set). -/
def getAttestationRecordsQueriesIssued (_viewDocIds : List String) : Nat := 1

/-! ## Configuration (config.go) -/

/-- The `shinzo` section of the configuration (config.go lines 35-37). -/
structure ShinzoConfig where
  minimumAttestations : String
deriving DecidableEq, Repr

/-- The configuration record, restricted to the fields the attestation
subsystem consumes (config.go lines 13-17). -/
structure Config where
  shinzo : ShinzoConfig
deriving DecidableEq, Repr

/-- Value of a digit run read most-significant first. -/
def natOfDigits (l : List Char) : Nat :=
  l.foldl (fun n c => n * 10 + (c.toNat - '0'.toNat)) 0

/-- Model of `fmt.Sscanf(s, "%d", &threshold)` for a `uint` argument:
leading horizontal whitespace is skipped, a nonempty run of decimal digits
(no sign) is scanned and must fit in 64 bits, and any trailing input is
ignored because the format string is exhausted after `%d`.  `none` models a
non-nil scan error. -/
def sscanfUint (s : String) : Option Nat :=
  let l := s.toList.dropWhile (fun c => c == ' ' || c == '\t')
  let ds := l.takeWhile isDigitChar
  if ds.isEmpty then none
  else if natOfDigits ds < 2 ^ 64 then some (natOfDigits ds) else none

/-- Embedding of `(*Config).GetMinimumAttestations` (config.go lines
73-84): a `nil` receiver (modelled by `none`) or empty setting yields 0, a
scan error yields 0, otherwise the scanned value is returned. -/
def GetMinimumAttestations : Option Config → Nat
  | none => 0
  | some c =>
    if c.shinzo.minimumAttestations = "" then 0
    else (sscanfUint c.shinzo.minimumAttestations).getD 0

/-- Strict parse of an entire string as an unsigned 64-bit decimal integer
(`strconv.ParseUint` semantics), the reading of "parsed as an unsigned
integer" used by the spec's configuration sentence. -/
def specParseUint (s : String) : Option Nat :=
  if s.toList ≠ [] ∧ s.toList.all isDigitChar ∧ natOfDigits s.toList < 2 ^ 64 then
    some (natOfDigits s.toList)
  else none


/-! ## Adaptive single-result search (spec §4.5)

`QuerySingleWithAttestationFilter` / `findFirstMeetingThreshold` are
exercised by `TestQuerySingleWithAttestationFilter` but their
implementation is not among the provided sources.  Two models are given:

* `findFirstMeetingThreshold` follows the behaviour pinned by the
  repository's tests (filter_test.go lines 494-628): an explicit `limit`
  in the query is the *initial* window of the adaptive loop ("query with
  limit increments to find result in large collection"), and exhausting the
  collection — with or without an explicit limit — fails with a message
  containing "after querying entire collection" (lines 608-627);
* `findFirstMeetingThresholdFixedLimit` follows the spec's §4.5
  "Fixed-Limit" state instead (an explicit limit is executed once and never
  expanded), for comparison with the tests.

The underlying query with limit `n` returns the first `n` documents of the
collection. -/

/-- Failure message of the exhausted search; the repository's tests require
both phrases (filter_test.go lines 625-626). -/
def exhaustedMsg : String :=
  "no results found that meet the minimum attestation threshold after querying entire collection"

/-- Failure message of the spec's Fixed-Limit state: `NoQualifyingResult`
within the query's declared limit (spec §4.5, without the
"entire collection" phrasing). -/
def fixedLimitMsg : String :=
  "no results found that meet the minimum attestation threshold within the limit specified in the query"

/-- Adaptive search loop, modelled from the spec's §4.5 Adaptive-Limit
state: query a window of `limit` documents, filter it, succeed on the first
qualifying document, report exhaustion when the store returned fewer
results than requested, otherwise grow the limit tenfold.  Structural
recursion on `fuel`; `findFirstFuel_sufficient`-style arguments below show
the fuel branch is unreachable from the entry point.  Returns the result
together with the list of window sizes used.  A `limit` of 0 (not reachable
from the entry point, whose limits are positive) reports exhaustion. -/
def findFirstAux (docs : List Document) (store : List AttestationRecord)
    (threshold : Nat) (query : String) :
    Nat → Nat → Except String Document × List Nat
  | 0, _ => (.error "internal: out of fuel", [])
  | fuel + 1, limit =>
    if limit = 0 then (.error exhaustedMsg, [limit])
    else
      let window := docs.take limit
      match filterMinimumIndexerAttestations window threshold query store with
      | .error e => (.error e, [limit])
      | .ok (d :: _) => (.ok d, [limit])
      | .ok [] =>
        if window.length < limit then (.error exhaustedMsg, [limit])
        else
          let r := findFirstAux docs store threshold query fuel (limit * 10)
          (r.1, limit :: r.2)

/-- Initial window size: the query's explicit limit when present, else the
spec's small constant 10. -/
def initialLimit (query : String) : Nat :=
  (extractLimitValue query).getD 10

/-- Modelled `findFirstMeetingThreshold` (behaviour pinned by
filter_test.go lines 494-628): adaptive search starting from the query's
explicit limit when present, else from 10. -/
def findFirstMeetingThreshold (docs : List Document) (store : List AttestationRecord)
    (threshold : Nat) (query : String) : Except String Document :=
  (findFirstAux docs store threshold query (docs.length + 2) (initialLimit query)).1

/-- Window sizes attempted by `findFirstMeetingThreshold`, in order. -/
def findFirstTrace (docs : List Document) (store : List AttestationRecord)
    (threshold : Nat) (query : String) : List Nat :=
  (findFirstAux docs store threshold query (docs.length + 2) (initialLimit query)).2

/-- Modelled from the spec: §4.5's Fixed-Limit state.  When the query
carries an explicit limit, execute it once, return the first qualifying
document or fail with `NoQualifyingResult` (never retrying); without an
explicit limit, behave adaptively. -/
def findFirstMeetingThresholdFixedLimit (docs : List Document)
    (store : List AttestationRecord) (threshold : Nat) (query : String) :
    Except String Document :=
  match extractLimitValue query with
  | some n =>
    match filterMinimumIndexerAttestations (docs.take n) threshold query store with
    | .error e => .error e
    | .ok (d :: _) => .ok d
    | .ok [] => .error fixedLimitMsg
  | none => (findFirstAux docs store threshold query (docs.length + 2) 10).1

/-- The 30-document scaled version of the scenario of
`TestQuerySingleWithAttestationFilter` / "query with limit exhausts
collection when no results meet threshold" (the test inserts 200 low-
attestation documents; 30 suffice to force the same window growth
10 → 100 → exhaustion). -/
def lowDocs (n : Nat) : List Document :=
  (List.range n).map (fun i => ⟨"doc" ++ toString i, "Low Doc " ++ toString i⟩)

/-- One attestation record with a single unique CID per low document. -/
def lowAttestations (n : Nat) : List AttestationRecord :=
  (List.range n).map (fun i => ⟨"doc" ++ toString i, "source" ++ toString i, ["cid" ++ toString i]⟩)

/-- The explicit-limit query of the exhaustion test (filter_test.go
line 620). -/
def qLimit10 : String := "query \x7b User(limit: 10) \x7b _docID name \x7d \x7d"


/-! ## Evaluation checks mirroring the repository test tables -/

example : extractCollectionNameFromQuery "query \x7b User \x7b name \x7d \x7d" = .ok "User" := rfl
example : extractCollectionNameFromQuery "\x7b User \x7b name \x7d \x7d" = .ok "User" := rfl
example : extractCollectionNameFromQuery "query \x7b myAlias: User \x7b name \x7d \x7d" = .ok "User" := rfl
example : extractCollectionNameFromQuery "subscription \x7b User \x7b name \x7d \x7d" = .ok "User" := rfl
example : extractCollectionNameFromQuery "query   \x7b   User123   \x7b   name  \x7d \x7d" = .ok "User123" := rfl
example : extractCollectionNameFromQuery "query \x7b AttestationRecord_ViewName \x7b attested_doc \x7d \x7d" = .ok "AttestationRecord_ViewName" := rfl
example : extractCollectionNameFromQuery "" = .error .emptyQuery := rfl
example : extractCollectionNameFromQuery "query User name" = .error .noOpeningBrace := rfl
example : extractCollectionNameFromQuery "   " = .error .noOpeningBrace := rfl
example : extractCollectionNameFromQuery "query \x7b User(filter: \x7bname: \x7b_eq: \"Test\"\x7d\x7d) \x7b name \x7d \x7d" = .ok "User" := rfl
example : hasLimitParameter "query \x7b User(limit: 10) \x7b name \x7d \x7d" = true := rfl
example : hasLimitParameter "query \x7b User(filter: \x7bname: \x7b_eq: \"Test\"\x7d\x7d, limit: 5) \x7b name \x7d \x7d" = true := rfl
example : hasLimitParameter "query \x7b User \x7b name \x7d \x7d" = false := rfl
example : hasLimitParameter "query \x7b User(LIMIT: 10) \x7b name \x7d \x7d" = true := rfl
example : extractLimitValue "query \x7b User(limit: 10) \x7b name \x7d \x7d" = some 10 := rfl
example : extractLimitValue "query \x7b User(limit: 5) \x7b name \x7d \x7d" = some 5 := rfl
example : extractLimitValue "query \x7b User(filter: \x7bname: \x7b_eq: \"Test\"\x7d\x7d, limit: 20) \x7b name \x7d \x7d" = some 20 := rfl
example : extractLimitValue "query \x7b User \x7b name \x7d \x7d" = none := rfl
example : extractLimitValue "query \x7b User(limit:) \x7b name \x7d \x7d" = none := rfl
example : GetMinimumAttestations (some ⟨⟨"2"⟩⟩) = 2 := rfl
example : GetMinimumAttestations (some ⟨⟨""⟩⟩) = 0 := rfl
example : GetMinimumAttestations (some ⟨⟨"abc"⟩⟩) = 0 := rfl
example : GetMinimumAttestations none = 0 := rfl

/-! ## Helper lemmas -/

theorem hasSub_append_right (a b pat : List Char) (h : hasSub b pat = true) :
    hasSub (a ++ b) pat = true := by
  induction a with
  | nil => simpa using h
  | cons x xs ih =>
    simp only [List.cons_append, hasSub, Bool.or_eq_true]
    exact Or.inr ih

theorem trimSpace_nil : trimSpace [] = [] := rfl

theorem dropWhile_eq_nil_of_all {p : Char → Bool} {l : List Char}
    (h : l.all p = true) : l.dropWhile p = [] := by
  induction l with
  | nil => rfl
  | cons x xs ih =>
    simp only [List.all_cons, Bool.and_eq_true] at h
    simp [List.dropWhile_cons, h.1, ih h.2]

theorem trimSpace_eq_nil_of_all {l : List Char} (h : l.all goIsSpace = true) :
    trimSpace l = [] := by
  unfold trimSpace
  rw [dropWhile_eq_nil_of_all h]
  rfl

theorem dropWhile_append_of_all {p : Char → Bool} {ws l : List Char}
    (h : ws.all p = true) : (ws ++ l).dropWhile p = l.dropWhile p := by
  induction ws with
  | nil => rfl
  | cons x xs ih =>
    simp only [List.all_cons, Bool.and_eq_true] at h
    simp [List.dropWhile_cons, h.1, ih h.2]

theorem dropWhile_cons_of_neg {p : Char → Bool} {c : Char} {l : List Char}
    (h : p c = false) : (c :: l).dropWhile p = c :: l := by
  simp [List.dropWhile_cons, h]

theorem trimSpace_eq_self {l : List Char}
    (h1 : ∀ c, l.head? = some c → goIsSpace c = false)
    (h2 : ∀ c, l.reverse.head? = some c → goIsSpace c = false) :
    trimSpace l = l := by
  cases l with
  | nil => rfl
  | cons x xs =>
    have hd2 : List.dropWhile goIsSpace (x :: xs).reverse = (x :: xs).reverse := by
      cases hrev : (x :: xs).reverse with
      | nil => rfl
      | cons y ys =>
        exact dropWhile_cons_of_neg (h2 y (by rw [hrev]; rfl))
    unfold trimSpace
    rw [dropWhile_cons_of_neg (h1 x rfl), hd2, List.reverse_reverse]

theorem trimSpace_append_left {ws l : List Char} (hws : ws.all goIsSpace = true)
    (h1 : ∀ c, l.head? = some c → goIsSpace c = false)
    (h2 : ∀ c, l.reverse.head? = some c → goIsSpace c = false) :
    trimSpace (ws ++ l) = l := by
  unfold trimSpace
  rw [dropWhile_append_of_all hws]
  have := trimSpace_eq_self h1 h2
  unfold trimSpace at this
  exact this

theorem goIsSpace_cases {c : Char} (h : goIsSpace c = true) :
    c = ' ' ∨ c = '\t' ∨ c = '\n' ∨ c = '\x0b' ∨ c = '\x0c' ∨ c = '\r' := by
  simp only [goIsSpace, Bool.or_eq_true, beq_iff_eq] at h
  tauto

theorem isIdentChar_not_space {c : Char} (h : isIdentChar c = true) :
    goIsSpace c = false := by
  cases hsp : goIsSpace c
  · rfl
  · rcases goIsSpace_cases hsp with h' | h' | h' | h' | h' | h' <;> subst h' <;>
      exact absurd h (by decide)

theorem isDigitChar_not_spaceTab {c : Char} (h : isDigitChar c = true) :
    (c == ' ' || c == '\t') = false := by
  cases hsp : (c == ' ' || c == '\t')
  · rfl
  · rcases Bool.or_eq_true _ _ |>.mp hsp with h' | h' <;>
      rw [beq_iff_eq] at h' <;> subst h' <;> exact absurd h (by decide)

theorem takeWhile_append_of_all {p : Char → Bool} {ds rest : List Char}
    (h : ds.all p = true) (hr : ∀ c, rest.head? = some c → p c = false) :
    (ds ++ rest).takeWhile p = ds := by
  induction ds with
  | nil =>
    cases rest with
    | nil => rfl
    | cons c t => simp [List.takeWhile_cons, hr c rfl]
  | cons x xs ih =>
    simp only [List.all_cons, Bool.and_eq_true] at h
    simp [List.takeWhile_cons, h.1, ih h.2]

theorem queryAttestationRecords_nil_ids (store : List AttestationRecord) :
    queryAttestationRecords store [] = [] := by
  unfold queryAttestationRecords
  induction store with
  | nil => rfl
  | cons r rs ih => simp_all [List.filter_cons]

/-! ## Claims -/

/-- C3: for every document list, every query string (malformed or empty
included) and every store, the threshold-0 call of
`filterMinimumIndexerAttestations` returns the input unchanged with no
error and issues no store query: the fast path precedes DocID extraction,
view-name extraction and the store query. -/
theorem C3_threshold_zero_fast_path (docs : List Document) (q : String)
    (store : List AttestationRecord) :
    filterMinimumIndexerAttestations docs 0 q store = .ok docs ∧
      filterStoreQueriesIssued 0 q = 0 :=
  ⟨rfl, rfl⟩

/-- C10: `GetAttestationRecords` never returns an empty record list
together with a nil error: whatever the underlying query produced, an `ok`
result is nonempty (a zero-record match is turned into an error). -/
theorem C10_getAttestationRecords_never_ok_empty (query : String)
    (qr : Except String (List AttestationRecord)) (store : List AttestationRecord)
    (v : String) (ids : List String) (recs : List AttestationRecord) :
    (getAttestationRecordsFrom query qr = .ok recs → recs ≠ []) ∧
      (GetAttestationRecords store v ids = .ok recs → recs ≠ []) := by
  constructor
  · intro h
    cases qr with
    | error e => simp [getAttestationRecordsFrom] at h
    | ok records =>
      by_cases hz : records.length = 0
      · simp [getAttestationRecordsFrom, hz] at h
      · simp [getAttestationRecordsFrom, hz] at h
        subst h
        intro hnil
        exact hz (by rw [hnil]; rfl)
  · intro h
    unfold GetAttestationRecords at h
    generalize hq : queryAttestationRecords store ids = records at h
    by_cases hz : records.length = 0
    · simp [getAttestationRecordsFrom, hz] at h
    · simp [getAttestationRecordsFrom, hz] at h
      subst h
      intro hnil
      exact hz (by rw [hnil]; rfl)

/-- Witness for C10 at a concrete input: a store holding one matching
record yields an `ok` result, which is then nonempty. -/
theorem C10_witness :
    ([⟨"a", "s", ["c"]⟩] : List AttestationRecord) ≠ [] :=
  (C10_getAttestationRecords_never_ok_empty "q" (.ok [⟨"a", "s", ["c"]⟩])
    [⟨"a", "s", ["c"]⟩] "User" ["a"] [⟨"a", "s", ["c"]⟩]).2 rfl

/-- C6 counterexample: for an empty id set, `GetAttestationRecords` does
not short-circuit.  It issues one store query, the emitted query string
contains the empty filter `_in: []`, and the call then errors (a store
with one record, queried with no ids). -/
theorem C6_counterexample :
    getAttestationRecordsQueriesIssued ([] : List String) = 1 ∧
      containsPhrase (buildAttestationInQuery "User" []) "_in: []" = true ∧
      GetAttestationRecords [⟨"a", "s", ["c"]⟩] "User" [] =
        .error ("No attestation records found with query: "
          ++ buildAttestationInQuery "User" []) := by
  refine ⟨rfl, by decide, rfl⟩

/-- C6 amended: for an empty id set and any view name, the fetch issues one
query whose filter contains the empty list `_in: []`, and
`GetAttestationRecords` then fails with "No attestation records found"
(rather than short-circuiting to an empty result). -/
theorem C6_amended_empty_ids_query_issued (v : String) (store : List AttestationRecord) :
    containsPhrase (buildAttestationInQuery v []) "_in: []" = true ∧
      getAttestationRecordsQueriesIssued ([] : List String) = 1 ∧
      GetAttestationRecords store v [] =
        .error ("No attestation records found with query: "
          ++ buildAttestationInQuery v []) := by
  refine ⟨?_, rfl, ?_⟩
  · unfold containsPhrase buildAttestationInQuery
    show hasSub (String.toList _) _ = true
    simp only [String.intercalate, List.map_nil, String.toList, String.data_append,
      List.append_assoc]
    apply hasSub_append_right
    apply hasSub_append_right
    decide
  · unfold GetAttestationRecords
    rw [queryAttestationRecords_nil_ids]
    rfl

/-- C7 counterexample: the whitespace-only query `"   "` fails with the
`NoOpeningBrace` kind, not `EmptyQuery`: the source checks `query == ""`
before trimming, so only the literally empty string takes the
`EmptyQuery` path. -/
theorem C7_counterexample :
    extractCollectionNameFromQuery "   " = .error .noOpeningBrace ∧
      ExtractErr.noOpeningBrace ≠ ExtractErr.emptyQuery :=
  ⟨rfl, by decide⟩

/-- C7 amended: only the literally empty query fails with `EmptyQuery`;
every nonempty query whose characters are all whitespace (so its trimmed
content is empty) fails with `NoOpeningBrace` instead. -/
theorem C7_amended_blank_queries (s : String) (hne : s ≠ "")
    (hsp : s.toList.all goIsSpace = true) :
    extractCollectionNameFromQuery "" = .error .emptyQuery ∧
      extractCollectionNameFromQuery s = .error .noOpeningBrace := by
  refine ⟨rfl, ?_⟩
  unfold extractCollectionNameFromQuery
  rw [if_neg hne, trimSpace_eq_nil_of_all hsp]
  rfl

/-- Witness for C7's amended theorem at the whitespace-only input from the
repository's test table. -/
theorem C7_amended_witness :
    extractCollectionNameFromQuery "" = .error .emptyQuery ∧
      extractCollectionNameFromQuery "   " = .error .noOpeningBrace :=
  C7_amended_blank_queries "   " (by decide) (by decide)

/-- C9 counterexample: the setting `"12abc"` cannot be parsed as an
unsigned integer (strict parse fails), yet `GetMinimumAttestations`
returns 12, not 0 — `fmt.Sscanf` with `%d` scans the leading digits and
ignores the trailing input once the format string is exhausted. -/
theorem C9_counterexample :
    GetMinimumAttestations (some ⟨⟨"12abc"⟩⟩) = 12 ∧
      specParseUint "12abc" = none ∧ (12 : Nat) ≠ 0 := by
  refine ⟨rfl, ?_, by decide⟩
  unfold specParseUint
  rw [if_neg]
  intro h
  have := h.2.1
  revert this
  decide

/-- C9 amended: `GetMinimumAttestations` returns the value scanned by
`fmt.Sscanf` with `%d`: leading spaces/tabs are skipped, the maximal
leading digit run (nonempty, below 2^64) is the result and any trailing
input is ignored; a `nil` config, an empty setting, or a failed scan
yields 0 and no error is ever returned. -/
theorem C9_amended_sscanf_semantics (ws ds rest : List Char)
    (hws : ws.all (fun c => c == ' ' || c == '\t') = true)
    (hne : ds ≠ []) (hdig : ds.all isDigitChar = true)
    (hrest : ∀ c, rest.head? = some c → isDigitChar c = false)
    (hbound : natOfDigits ds < 2 ^ 64) :
    GetMinimumAttestations (some ⟨⟨String.mk (ws ++ ds ++ rest)⟩⟩) = natOfDigits ds ∧
      (∀ s : String, sscanfUint s = none → GetMinimumAttestations (some ⟨⟨s⟩⟩) = 0) ∧
      GetMinimumAttestations none = 0 := by
  refine ⟨?_, ?_, rfl⟩
  · obtain ⟨d0, ds', rfl⟩ : ∃ d0 ds', ds = d0 :: ds' := by
      cases ds with
      | nil => exact absurd rfl hne
      | cons a l => exact ⟨a, l, rfl⟩
    have hd0 : isDigitChar d0 = true := by
      simp only [List.all_cons, Bool.and_eq_true] at hdig
      exact hdig.1
    have hscan : sscanfUint (String.mk (ws ++ (d0 :: ds') ++ rest)) = some (natOfDigits (d0 :: ds')) := by
      have htl : (String.mk (ws ++ (d0 :: ds') ++ rest)).toList = ws ++ (d0 :: (ds' ++ rest)) := by
        simp [String.toList]
      have e1 : List.dropWhile (fun c => c == ' ' || c == '\t') (ws ++ (d0 :: (ds' ++ rest)))
          = d0 :: (ds' ++ rest) := by
        rw [dropWhile_append_of_all hws]
        exact @dropWhile_cons_of_neg (fun c => c == ' ' || c == '\t') d0 (ds' ++ rest)
          (isDigitChar_not_spaceTab hd0)
      have e2 : List.takeWhile isDigitChar (d0 :: (ds' ++ rest)) = d0 :: ds' := by
        have h3 := @takeWhile_append_of_all isDigitChar (d0 :: ds') rest hdig hrest
        rw [List.cons_append] at h3
        exact h3
      simp only [sscanfUint]
      rw [htl, e1, e2]
      simp only [List.isEmpty_cons, if_false, Bool.false_eq_true]
      rw [if_pos (by exact_mod_cast hbound)]
  
    have hne' : ¬ (String.mk (ws ++ (d0 :: ds') ++ rest) = "") := by
      intro h
      have h3 := congrArg String.toList h
      simp [String.toList] at h3
    simp only [GetMinimumAttestations]
    rw [if_neg hne', hscan]
    rfl
  · intro s hs
    by_cases he : s = ""
    · simp [GetMinimumAttestations, he]
    · simp [GetMinimumAttestations, he, hs]

/-- Witness for C9's amended theorem at the concrete setting `" 42x"`. -/
theorem C9_amended_witness :
    GetMinimumAttestations (some ⟨⟨String.mk ([' '] ++ ['4', '2'] ++ ['x'])⟩⟩) =
      natOfDigits ['4', '2'] :=
  (C9_amended_sscanf_semantics [' '] ['4', '2'] ['x'] (by decide) (by decide)
    (by decide) (by intro c hc; cases hc; decide) (by decide)).1

/-! ## Counting lemmas (for C4 and C2) -/

theorem mem_insertCID {s : List String} {c c' : String} :
    c' ∈ insertCID s c ↔ c' ∈ s ∨ c' = c := by
  unfold insertCID
  by_cases h : s.contains c = true
  · rw [if_pos h]
    have hc : c ∈ s := List.elem_iff.mp h
    constructor
    · exact Or.inl
    · rintro (h' | rfl)
      · exact h'
      · exact hc
  · rw [if_neg h]
    simp

theorem nodup_insertCID {s : List String} {c : String} (h : s.Nodup) :
    (insertCID s c).Nodup := by
  unfold insertCID
  by_cases hc : s.contains c = true
  · rwa [if_pos hc]
  · rw [if_neg hc]
    rw [List.nodup_append]
    refine ⟨h, List.nodup_singleton c, ?_⟩
    intro a ha hb
    rw [List.mem_singleton] at hb
    subst hb
    exact hc (List.elem_iff.mpr ha)

theorem mem_addCIDs {cs : List String} {s : List String} {c' : String} :
    c' ∈ addCIDs s cs ↔ c' ∈ s ∨ c' ∈ cs := by
  induction cs generalizing s with
  | nil => simp [addCIDs]
  | cons x xs ih =>
    unfold addCIDs at ih ⊢
    rw [List.foldl_cons, ih, mem_insertCID]
    simp only [List.mem_cons]
    tauto

theorem nodup_addCIDs {cs s : List String} (h : s.Nodup) : (addCIDs s cs).Nodup := by
  induction cs generalizing s with
  | nil => exact h
  | cons x xs ih =>
    unfold addCIDs at ih ⊢
    rw [List.foldl_cons]
    exact ih (nodup_insertCID h)

theorem cidSet_go_mem {d : String} {c : String} (records : List AttestationRecord)
    (init : List String) :
    c ∈ records.foldl (fun s r => if r.attestedDocId == d then addCIDs s r.cids else s) init ↔
      c ∈ init ∨ ∃ r ∈ records, r.attestedDocId = d ∧ c ∈ r.cids := by
  induction records generalizing init with
  | nil => simp
  | cons r rs ih =>
    rw [List.foldl_cons, ih]
    by_cases hr : r.attestedDocId = d
    · simp only [if_pos (beq_iff_eq.mpr hr), mem_addCIDs, List.mem_cons]
      constructor
      · rintro (⟨h | h⟩ | h)
        · exact Or.inl h
        · exact Or.inr ⟨r, Or.inl rfl, hr, h⟩
        · obtain ⟨r', hr', hd, hc⟩ := h
          exact Or.inr ⟨r', Or.inr hr', hd, hc⟩
      · rintro (h | ⟨r', hr' | hr', hd, hc⟩)
        · exact Or.inl (Or.inl h)
        · subst hr'
          exact Or.inl (Or.inr hc)
        · exact Or.inr ⟨r', hr', hd, hc⟩
    · rw [if_neg (by simpa using hr)]
      simp only [List.mem_cons]
      constructor
      · rintro (h | ⟨r', hr', hd, hc⟩)
        · exact Or.inl h
        · exact Or.inr ⟨r', Or.inr hr', hd, hc⟩
      · rintro (h | ⟨r', hr' | hr', hd, hc⟩)
        · exact Or.inl h
        · subst hr'
          exact absurd hd hr
        · exact Or.inr ⟨r', hr', hd, hc⟩

theorem cidSet_go_nodup {d : String} (records : List AttestationRecord)
    (init : List String) (h : init.Nodup) :
    (records.foldl (fun s r => if r.attestedDocId == d then addCIDs s r.cids else s) init).Nodup := by
  induction records generalizing init with
  | nil => exact h
  | cons r rs ih =>
    rw [List.foldl_cons]
    by_cases hr : r.attestedDocId == d
    · rw [if_pos hr]
      exact ih _ (nodup_addCIDs h)
    · rw [if_neg hr]
      exact ih _ h

theorem mem_cidSet {records : List AttestationRecord} {d c : String} :
    c ∈ cidSet records d ↔ ∃ r ∈ records, r.attestedDocId = d ∧ c ∈ r.cids := by
  unfold cidSet
  rw [cidSet_go_mem]
  simp

theorem nodup_cidSet {records : List AttestationRecord} {d : String} :
    (cidSet records d).Nodup :=
  cidSet_go_nodup records [] List.nodup_nil

theorem attestationCount_eq_specCount (records : List AttestationRecord) (d : String) :
    attestationCount records d = specCount records d := by
  unfold attestationCount specCount
  apply List.Perm.length_eq
  rw [List.perm_ext_iff_of_nodup nodup_cidSet (List.nodup_dedup _)]
  intro a
  rw [mem_cidSet]
  simp only [List.mem_dedup, List.mem_flatMap, List.mem_filter, beq_iff_eq]
  constructor
  · rintro ⟨r, hr, hd, hc⟩
    exact ⟨r, ⟨hr, hd⟩, hc⟩
  · rintro ⟨r, ⟨hr, hd⟩, hc⟩
    exact ⟨r, hr, hd, hc⟩

theorem specCount_perm {r1 r2 : List AttestationRecord} (d : String) (h : r1.Perm r2) :
    specCount r1 d = specCount r2 d := by
  unfold specCount
  apply List.Perm.length_eq
  rw [List.perm_ext_iff_of_nodup (List.nodup_dedup _) (List.nodup_dedup _)]
  intro a
  simp only [List.mem_dedup, List.mem_flatMap, List.mem_filter]
  constructor
  · rintro ⟨r, ⟨hr, hd⟩, hc⟩
    exact ⟨r, ⟨h.mem_iff.mp hr, hd⟩, hc⟩
  · rintro ⟨r, ⟨hr, hd⟩, hc⟩
    exact ⟨r, ⟨h.mem_iff.mpr hr, hd⟩, hc⟩

/-- C4: the per-document attestation count is the cardinality of the union
of the CID lists over records with matching `AttestedDocId` (deduplicated),
hence invariant under reordering of the records and under duplicated CIDs;
on the records `[(a, [x, y]), (a, [x, z])]` the count for `"a"` is 3,
not 4. -/
theorem C4_count_union_cardinality :
    (∀ (records : List AttestationRecord) (docId : String),
        attestationCount records docId = specCount records docId) ∧
      (∀ (r1 r2 : List AttestationRecord) (docId : String), r1.Perm r2 →
        attestationCount r1 docId = attestationCount r2 docId) ∧
      attestationCount [⟨"a", "s1", ["x", "y"]⟩, ⟨"a", "s2", ["x", "z"]⟩] "a" = 3 := by
  refine ⟨attestationCount_eq_specCount, ?_, by decide⟩
  intro r1 r2 docId h
  rw [attestationCount_eq_specCount, attestationCount_eq_specCount]
  exact specCount_perm docId h

/-- Witness for C4 at a concrete reordering: swapping the two records of
the example leaves the count at 3. -/
theorem C4_witness :
    attestationCount [⟨"a", "s1", ["x", "y"]⟩, ⟨"a", "s2", ["x", "z"]⟩] "a" =
      attestationCount [⟨"a", "s2", ["x", "z"]⟩, ⟨"a", "s1", ["x", "y"]⟩] "a" :=
  C4_count_union_cardinality.2.1 _ _ "a" (List.Perm.swap _ _ [])

/-! ## Map lemmas (for C2) -/

theorem keys_insertAssoc_of_mem {m : List (String × Document)} {k : String}
    {v : Document} (h : m.any (fun p => p.1 == k) = true) :
    (insertAssoc m k v).map (fun p => p.1) = m.map (fun p => p.1) := by
  unfold insertAssoc
  rw [if_pos h, List.map_map]
  apply List.map_congr_left
  intro p _
  by_cases hp : p.1 == k
  · simp only [Function.comp, if_pos hp]
    exact (beq_iff_eq.mp hp).symm
  · simp only [Function.comp, if_neg hp]

theorem keys_insertAssoc_of_not_mem {m : List (String × Document)} {k : String}
    {v : Document} (h : ¬ m.any (fun p => p.1 == k) = true) :
    (insertAssoc m k v).map (fun p => p.1) = m.map (fun p => p.1) ++ [k] := by
  unfold insertAssoc
  rw [if_neg h, List.map_append]
  rfl

theorem mem_keys_insertAssoc {m : List (String × Document)} {k k' : String}
    {v : Document} :
    k' ∈ (insertAssoc m k v).map (fun p => p.1) ↔
      k' ∈ m.map (fun p => p.1) ∨ k' = k := by
  by_cases h : m.any (fun p => p.1 == k) = true
  · rw [keys_insertAssoc_of_mem h]
    constructor
    · exact Or.inl
    · rintro (h' | rfl)
      · exact h'
      · obtain ⟨p, hp, hk⟩ := List.any_eq_true.mp h
        exact List.mem_map.mpr ⟨p, hp, beq_iff_eq.mp hk⟩
  · rw [keys_insertAssoc_of_not_mem h]
    simp

theorem nodup_keys_insertAssoc {m : List (String × Document)} {k : String}
    {v : Document} (h : (m.map (fun p => p.1)).Nodup) :
    ((insertAssoc m k v).map (fun p => p.1)).Nodup := by
  by_cases hc : m.any (fun p => p.1 == k) = true
  · rwa [keys_insertAssoc_of_mem hc]
  · rw [keys_insertAssoc_of_not_mem hc, List.nodup_append]
    refine ⟨h, List.nodup_singleton k, ?_⟩
    intro a ha hb
    rw [List.mem_singleton] at hb
    subst hb
    obtain ⟨p, hp, hk⟩ := List.mem_map.mp ha
    exact hc (List.any_eq_true.mpr ⟨p, hp, beq_iff_eq.mpr hk⟩)

theorem mem_insertAssoc_elim {m : List (String × Document)} {k : String}
    {v : Document} {p : String × Document} (h : p ∈ insertAssoc m k v) :
    p ∈ m ∨ p = (k, v) := by
  unfold insertAssoc at h
  by_cases hc : m.any (fun q => q.1 == k) = true
  · rw [if_pos hc] at h
    obtain ⟨q, hq, hfq⟩ := List.mem_map.mp h
    by_cases hqk : q.1 == k
    · rw [if_pos hqk] at hfq
      exact Or.inr hfq.symm
    · rw [if_neg hqk] at hfq
      exact Or.inl (hfq ▸ hq)
  · rw [if_neg hc, List.mem_append, List.mem_singleton] at h
    exact h

theorem documentsById_go_entries (l : List Document) (D : List Document)
    (m : List (String × Document))
    (hm : ∀ p ∈ m, p.2 ∈ D ∧ p.2.docID = p.1) (hl : ∀ d ∈ l, d ∈ D) :
    ∀ p ∈ l.foldl (fun m d => insertAssoc m d.docID d) m, p.2 ∈ D ∧ p.2.docID = p.1 := by
  induction l generalizing m with
  | nil => exact hm
  | cons d l' ih =>
    rw [List.foldl_cons]
    apply ih
    · intro p hp
      rcases mem_insertAssoc_elim hp with h | rfl
      · exact hm p h
      · exact ⟨hl d (List.mem_cons_self d l'), rfl⟩
    · intro x hx
      exact hl x (List.mem_cons_of_mem d hx)

theorem documentsById_entries {docs : List Document} {p : String × Document}
    (h : p ∈ documentsById docs) : p.2 ∈ docs ∧ p.2.docID = p.1 :=
  documentsById_go_entries docs docs [] (by intro p hp; cases hp) (fun _ h => h) p h

theorem mem_keys_documentsById_go (l : List Document) (m : List (String × Document))
    (k : String) :
    k ∈ (l.foldl (fun m d => insertAssoc m d.docID d) m).map (fun p => p.1) ↔
      k ∈ m.map (fun p => p.1) ∨ ∃ d ∈ l, d.docID = k := by
  induction l generalizing m with
  | nil => simp
  | cons d l' ih =>
    rw [List.foldl_cons, ih]
    simp only [mem_keys_insertAssoc, List.mem_cons]
    constructor
    · rintro ((h | rfl) | ⟨d', hd', hk⟩)
      · exact Or.inl h
      · exact Or.inr ⟨d, Or.inl rfl, rfl⟩
      · exact Or.inr ⟨d', Or.inr hd', hk⟩
    · rintro (h | ⟨d', hd' | hd', hk⟩)
      · exact Or.inl (Or.inl h)
      · subst hd'
        exact Or.inl (Or.inr hk.symm)
      · exact Or.inr ⟨d', hd', hk⟩

theorem mem_keys_documentsById {docs : List Document} {k : String} :
    k ∈ (documentsById docs).map (fun p => p.1) ↔ ∃ d ∈ docs, d.docID = k := by
  unfold documentsById
  rw [mem_keys_documentsById_go]
  simp

theorem nodup_keys_documentsById_go (l : List Document) (m : List (String × Document))
    (hm : (m.map (fun p => p.1)).Nodup) :
    ((l.foldl (fun m d => insertAssoc m d.docID d) m).map (fun p => p.1)).Nodup := by
  induction l generalizing m with
  | nil => exact hm
  | cons d l' ih =>
    rw [List.foldl_cons]
    exact ih _ (nodup_keys_insertAssoc hm)

theorem lookupAssoc_mem {m : List (String × Document)} {k : String} {d : Document}
    (h : lookupAssoc m k = some d) : (k, d) ∈ m := by
  unfold lookupAssoc at h
  cases hf : m.find? (fun p => p.1 == k) with
  | none => rw [hf] at h; cases h
  | some p =>
    rw [hf] at h
    have hp : p ∈ m := List.mem_of_find?_eq_some hf
    have hk : p.1 = k := by
      have h2 := List.find?_some hf
      simpa using h2
    have hd : p.2 = d := by simpa using h
    have : (k, d) = p := by
      cases p
      simp_all
    rw [this]
    exact hp

theorem lookupAssoc_isSome_of_mem_keys {m : List (String × Document)} {k : String}
    (h : k ∈ m.map (fun p => p.1)) : (lookupAssoc m k).isSome := by
  unfold lookupAssoc
  cases hf : m.find? (fun p => p.1 == k) with
  | none =>
    obtain ⟨p, hp, hk⟩ := List.mem_map.mp h
    exact absurd (beq_iff_eq.mpr hk) (List.find?_eq_none.mp hf p hp)
  | some p => rfl

theorem specCount_queryAttestation {store : List AttestationRecord}
    {ids : List String} {k : String} (hk : k ∈ ids) :
    specCount (queryAttestationRecords store ids) k = specCount store k := by
  unfold specCount queryAttestationRecords
  rw [List.filter_filter]
  have hfe : List.filter (fun a => a.attestedDocId == k && ids.contains a.attestedDocId) store
      = List.filter (fun r => r.attestedDocId == k) store := by
    apply List.filter_congr
    intro r _
    by_cases hr : r.attestedDocId == k
    · rw [hr]
      have hc : ids.contains r.attestedDocId = true := by
        rw [beq_iff_eq] at hr
        rw [hr]
        exact List.elem_iff.mpr hk
      rw [hc]
      rfl
    · have hf : (r.attestedDocId == k) = false := Bool.eq_false_iff.mpr hr
      rw [hf]
      simp
  rw [hfe]

/-- Membership in the list built by the counting-and-filtering phase of
`filterMinimumIndexerAttestations` (threshold positive, ids distinct):
exactly the input documents whose distinct-CID count over the store meets
the threshold. -/
theorem filter_core_mem {store : List AttestationRecord} {thr : Nat}
    {docs : List Document} {d : Document}
    (hthr : 1 ≤ thr) (hnd : (docs.map Document.docID).Nodup) :
    d ∈ (((queryAttestationRecords store ((documentsById docs).map (fun p => p.1))).map
          (fun r => r.attestedDocId)).dedup.filter
            (fun k => thr ≤ attestationCount
              (queryAttestationRecords store ((documentsById docs).map (fun p => p.1))) k)).map
        (fun k => (lookupAssoc (documentsById docs) k).getD defaultDocument) ↔
      d ∈ docs ∧ thr ≤ specCount store d.docID := by
  constructor
  · intro hd
    obtain ⟨k, hk, hfk⟩ := List.mem_map.mp hd
    rw [List.mem_filter] at hk
    obtain ⟨hk1, hk2⟩ := hk
    rw [List.mem_dedup] at hk1
    obtain ⟨r, hr, hrk⟩ := List.mem_map.mp hk1
    have hrf := List.mem_filter.mp hr
    have hkids : k ∈ (documentsById docs).map (fun p => p.1) := by
      rw [← hrk]
      exact List.elem_iff.mp hrf.2
    obtain ⟨d', hd'⟩ := Option.isSome_iff_exists.mp (lookupAssoc_isSome_of_mem_keys hkids)
    have hent := documentsById_entries (lookupAssoc_mem hd')
    rw [hd'] at hfk
    simp only [Option.getD_some] at hfk
    subst hfk
    refine ⟨hent.1, ?_⟩
    simp only [decide_eq_true_eq] at hk2
    rw [attestationCount_eq_specCount, specCount_queryAttestation hkids] at hk2
    rw [hent.2]
    exact hk2
  · rintro ⟨hd, hcnt⟩
    have hkids : d.docID ∈ (documentsById docs).map (fun p => p.1) :=
      mem_keys_documentsById.mpr ⟨d, hd, rfl⟩
    have hpos : 1 ≤ specCount store d.docID := le_trans hthr hcnt
    have hrec : ∃ r ∈ store, r.attestedDocId = d.docID := by
      by_contra hno
      push_neg at hno
      have hnil : List.filter (fun r => r.attestedDocId == d.docID) store = [] := by
        rw [List.filter_eq_nil_iff]
        intro r hr
        simp only [beq_iff_eq]
        exact hno r hr
      unfold specCount at hpos
      rw [hnil] at hpos
      simp at hpos
    obtain ⟨r, hr, hrk⟩ := hrec
    have hrq : r ∈ queryAttestationRecords store ((documentsById docs).map (fun p => p.1)) := by
      rw [queryAttestationRecords, List.mem_filter]
      refine ⟨hr, ?_⟩
      rw [hrk]
      exact List.elem_iff.mpr hkids
    apply List.mem_map.mpr
    refine ⟨d.docID, ?_, ?_⟩
    · rw [List.mem_filter]
      constructor
      · rw [List.mem_dedup]
        exact List.mem_map.mpr ⟨r, hrq, hrk⟩
      · simp only [decide_eq_true_eq]
        rw [attestationCount_eq_specCount, specCount_queryAttestation hkids]
        exact hcnt
    · obtain ⟨d', hd'⟩ := Option.isSome_iff_exists.mp (lookupAssoc_isSome_of_mem_keys hkids)
      have hent := documentsById_entries (lookupAssoc_mem hd')
      have hdd : d' = d := List.inj_on_of_nodup_map hnd hent.1 hd (by rw [hent.2])
      rw [hd', hdd]
      rfl

/-- C2: for every document list with distinct `DocID`s, every positive
threshold and every query from which a view name can be extracted,
`filterMinimumIndexerAttestations` succeeds and returns exactly those input
documents whose distinct-CID attestation count over the store meets the
threshold; in particular an input document with no matching attestation
record at all is never returned. -/
theorem C2_filter_threshold_semantics (docs : List Document)
    (store : List AttestationRecord) (thr : Nat) (query : String)
    (hthr : 1 ≤ thr) (hq : ∃ v, extractCollectionNameFromQuery query = .ok v)
    (hnd : (docs.map Document.docID).Nodup) :
    ∃ res, filterMinimumIndexerAttestations docs thr query store = .ok res ∧
      (∀ d, d ∈ res ↔ d ∈ docs ∧ thr ≤ specCount store d.docID) ∧
      (∀ d ∈ docs, (∀ r ∈ store, r.attestedDocId ≠ d.docID) → d ∉ res) := by
  obtain ⟨v, hv⟩ := hq
  have hthr0 : ¬ thr = 0 := by omega
  refine ⟨_, by rw [filterMinimumIndexerAttestations, if_neg hthr0, hv], ?_, ?_⟩
  · intro d
    exact filter_core_mem hthr hnd
  · intro d hd hno hmem
    have h2 := (filter_core_mem hthr hnd).mp hmem
    have hz : specCount store d.docID = 0 := by
      unfold specCount
      have hnil : List.filter (fun r => r.attestedDocId == d.docID) store = [] := by
        rw [List.filter_eq_nil_iff]
        intro r hr
        simp only [beq_iff_eq]
        exact hno r hr
      rw [hnil]
      rfl
    rw [hz] at h2
    omega

/-- Witness for C2 at the end-to-end scenario of
`TestFilterMinimumIndexerAttestations`: three documents with 3, 3 and 1
unique CIDs, threshold 2 — the first two qualify, the third does not. -/
theorem C2_witness :
    (⟨"doc1", "Document 1"⟩ : Document) ∈
        [⟨"doc1", "Document 1"⟩, ⟨"doc2", "Document 2"⟩] ∧
      2 ≤ specCount
        [⟨"doc1", "s1", ["cid1", "cid2", "cid3"]⟩,
         ⟨"doc2", "s2", ["cid4", "cid5"]⟩,
         ⟨"doc2", "s2b", ["cid4", "cid6"]⟩,
         ⟨"doc3", "s3", ["cid7"]⟩] "doc1" := by
  obtain ⟨res, hres, hiff, hexc⟩ := C2_filter_threshold_semantics
    [⟨"doc1", "Document 1"⟩, ⟨"doc2", "Document 2"⟩]
    [⟨"doc1", "s1", ["cid1", "cid2", "cid3"]⟩,
     ⟨"doc2", "s2", ["cid4", "cid5"]⟩,
     ⟨"doc2", "s2b", ["cid4", "cid6"]⟩,
     ⟨"doc3", "s3", ["cid7"]⟩] 2
    "query \x7b User \x7b _docID name \x7d \x7d"
    (by decide) ⟨"User", rfl⟩ (by decide)
  refine (hiff ⟨"doc1", "Document 1"⟩).mp ?_
  have hin : res = [⟨"doc1", "Document 1"⟩, ⟨"doc2", "Document 2"⟩] := by
    have := hres
    rw [show filterMinimumIndexerAttestations
        [⟨"doc1", "Document 1"⟩, ⟨"doc2", "Document 2"⟩]
        2 "query \x7b User \x7b _docID name \x7d \x7d"
        [⟨"doc1", "s1", ["cid1", "cid2", "cid3"]⟩,
         ⟨"doc2", "s2", ["cid4", "cid5"]⟩,
         ⟨"doc2", "s2b", ["cid4", "cid6"]⟩,
         ⟨"doc3", "s3", ["cid7"]⟩] =
      .ok [⟨"doc1", "Document 1"⟩, ⟨"doc2", "Document 2"⟩] from rfl] at this
    exact (Except.ok.injEq _ _).mp this.symm
  rw [hin]
  decide

/-! ## Adaptive search lemmas (for C1 and C5) -/

theorem filter_allBelow {docs : List Document} {store : List AttestationRecord}
    {thr : Nat} {query : String} {v : String}
    (hv : extractCollectionNameFromQuery query = .ok v)
    (hb : ∀ d ∈ docs, specCount store d.docID < thr) :
    filterMinimumIndexerAttestations docs thr query store = .ok [] := by
  by_cases h0 : thr = 0
  · subst h0
    have hd : docs = [] := by
      cases docs with
      | nil => rfl
      | cons d ds => exact absurd (hb d (List.mem_cons_self d ds)) (by omega)
    rw [hd]
    rfl
  · rw [filterMinimumIndexerAttestations, if_neg h0, hv]
    refine congrArg Except.ok ?_
    rw [List.map_eq_nil_iff, List.filter_eq_nil_iff]
    intro k hk
    rw [List.mem_dedup] at hk
    obtain ⟨r, hr, hrk⟩ := List.mem_map.mp hk
    have hrf := List.mem_filter.mp hr
    have hkids : k ∈ (documentsById docs).map (fun p => p.1) := by
      rw [← hrk]
      exact List.elem_iff.mp hrf.2
    obtain ⟨d, hd, hdk⟩ := mem_keys_documentsById.mp hkids
    have hlt : specCount store k < thr := hdk ▸ hb d hd
    simp only [decide_eq_true_eq]
    rw [attestationCount_eq_specCount, specCount_queryAttestation hkids]
    omega

theorem findFirstAux_allBelow {docs : List Document} {store : List AttestationRecord}
    {thr : Nat} {query : String} {v : String}
    (hv : extractCollectionNameFromQuery query = .ok v)
    (hb : ∀ d ∈ docs, specCount store d.docID < thr) :
    ∀ fuel limit, 1 ≤ fuel → 1 ≤ limit → docs.length + 2 ≤ fuel + limit →
      (findFirstAux docs store thr query fuel limit).1 = .error exhaustedMsg ∧
        ∃ t, (findFirstAux docs store thr query fuel limit).2 = limit :: t := by
  intro fuel
  induction fuel with
  | zero => intro limit h1 _ _; omega
  | succ f ih =>
    intro limit _ hl hfl
    have hwb : ∀ d ∈ docs.take limit, specCount store d.docID < thr :=
      fun d hd => hb d (List.take_subset limit docs hd)
    have hfil := filter_allBelow hv hwb
    simp only [findFirstAux, if_neg (by omega : ¬ limit = 0), hfil]
    by_cases hlen : (docs.take limit).length < limit
    · rw [if_pos hlen]
      exact ⟨rfl, [], rfl⟩
    · rw [if_neg hlen]
      have hlim_le : limit ≤ docs.length := by
        rw [List.length_take] at hlen
        omega
      have hrec := ih (limit * 10) (by omega) (by omega) (by omega)
      refine ⟨hrec.1, ?_⟩
      obtain ⟨t, ht⟩ := hrec.2
      exact ⟨limit * 10 :: t, by rw [ht]⟩

/-- C5: when the query carries no usable limit and every document of the
collection is below the threshold, the adaptive single-result search
terminates: it returns the `NoQualifyingResult` error whose message states
"after querying entire collection" (and in particular never reaches the
out-of-fuel branch of the model). -/
theorem C5_adaptive_search_exhausts (docs : List Document)
    (store : List AttestationRecord) (thr : Nat) (query : String) (v : String)
    (hnolimit : extractLimitValue query = none)
    (hv : extractCollectionNameFromQuery query = .ok v)
    (hb : ∀ d ∈ docs, specCount store d.docID < thr) :
    findFirstMeetingThreshold docs store thr query = .error exhaustedMsg ∧
      containsPhrase exhaustedMsg "after querying entire collection" = true := by
  constructor
  · unfold findFirstMeetingThreshold initialLimit
    rw [hnolimit]
    exact (findFirstAux_allBelow hv hb (docs.length + 2) ((none : Option Nat).getD 10)
      (by omega) (by decide) (by simp)).1
  · decide

/-- Witness for C5 at the scenario of the repository's test
"query without limit and no matching results returns error": two documents
with one CID each, threshold 10, no limit in the query. -/
theorem C5_witness :
    findFirstMeetingThreshold
        [⟨"doc1", "Document 1"⟩, ⟨"doc2", "Document 2"⟩]
        [⟨"doc1", "s1", ["cid1"]⟩, ⟨"doc2", "s2", ["cid2"]⟩]
        10 "query \x7b User \x7b _docID name \x7d \x7d" = .error exhaustedMsg ∧
      containsPhrase exhaustedMsg "after querying entire collection" = true :=
  C5_adaptive_search_exhausts _ _ 10 _ "User" (by decide) rfl (by decide)

/-- C1 amended: a query with an explicit positive limit uses that limit as
the *initial* window of the adaptive search (the first window size tried is
the explicit limit), the search still expands and retries, and when no
document meets the threshold it exhausts the collection and fails with the
message containing "after querying entire collection" — the behaviour
pinned by `TestQuerySingleWithAttestationFilter` (filter_test.go lines
583-627), contradicting the spec's Fixed-Limit state. -/
theorem C1_amended_explicit_limit_is_initial_window (docs : List Document)
    (store : List AttestationRecord) (thr : Nat) (query : String) (v : String)
    (n : Nat) (hlim : extractLimitValue query = some n) (hn : 1 ≤ n)
    (hv : extractCollectionNameFromQuery query = .ok v)
    (hb : ∀ d ∈ docs, specCount store d.docID < thr) :
    findFirstMeetingThreshold docs store thr query = .error exhaustedMsg ∧
      (∃ t, findFirstTrace docs store thr query = n :: t) ∧
      containsPhrase exhaustedMsg "after querying entire collection" = true := by
  have h := findFirstAux_allBelow hv hb (docs.length + 2) n (by omega) hn (by omega)
  refine ⟨?_, ?_, by decide⟩
  · unfold findFirstMeetingThreshold initialLimit
    rw [hlim]
    exact h.1
  · unfold findFirstTrace initialLimit
    rw [hlim]
    exact h.2

/-- Witness for C1's amended theorem: two low-attestation documents,
threshold 2, explicit `limit: 10` — the first window is 10 and the search
ends with the "entire collection" failure. -/
theorem C1_amended_witness :
    findFirstMeetingThreshold
        [⟨"doc1", "Document 1"⟩, ⟨"doc2", "Document 2"⟩]
        [⟨"doc1", "s1", ["cid1"]⟩, ⟨"doc2", "s2", ["cid2"]⟩]
        2 "query \x7b User(limit: 10) \x7b _docID name \x7d \x7d" = .error exhaustedMsg ∧
      (∃ t, findFirstTrace
        [⟨"doc1", "Document 1"⟩, ⟨"doc2", "Document 2"⟩]
        [⟨"doc1", "s1", ["cid1"]⟩, ⟨"doc2", "s2", ["cid2"]⟩]
        2 "query \x7b User(limit: 10) \x7b _docID name \x7d \x7d" = 10 :: t) ∧
      containsPhrase exhaustedMsg "after querying entire collection" = true :=
  C1_amended_explicit_limit_is_initial_window _ _ 2 _ "User" 10 rfl (by decide) rfl (by decide)

/-- C1 counterexample: on the exhaustion scenario of the repository's own
test (low-attestation collection larger than the explicit `limit: 10`,
threshold 2), the pinned behaviour executes the underlying query more than
once — the window sizes tried are `[10, 100]`, not `[10]` — and the failure
message does contain "after querying entire collection"; the spec's
Fixed-Limit state (query executed once, message without that phrase) fails
the repository's test assertions at lines 625-626. -/
theorem C1_counterexample :
    findFirstTrace (lowDocs 30) (lowAttestations 30) 2 qLimit10 = [10, 100] ∧
      (match findFirstMeetingThreshold (lowDocs 30) (lowAttestations 30) 2 qLimit10 with
        | .error m => containsPhrase m "after querying entire collection"
        | .ok _ => false) = true ∧
      (match findFirstMeetingThresholdFixedLimit (lowDocs 30) (lowAttestations 30) 2 qLimit10 with
        | .error m => m == fixedLimitMsg
        | .ok _ => false) = true ∧
      containsPhrase fixedLimitMsg "after querying entire collection" = false := by
  refine ⟨by decide, by decide, by decide, by decide⟩

/-! ## Scan-loop lemmas (for C8) -/

theorem identStart_identChar {c : Char} (h : isIdentStart c = true) :
    isIdentChar c = true := by
  unfold isIdentStart at h
  unfold isIdentChar
  rcases Bool.or_eq_true _ _ |>.mp h with h' | h'
  · rw [h']
    rfl
  · rw [h']
    simp

theorem identChar_ne_colon {c : Char} (h : isIdentChar c = true) :
    (c == ':') = false := by
  cases hc : c == ':'
  · rfl
  · rw [beq_iff_eq] at hc
    subst hc
    exact absurd h (by decide)

theorem loopWS_goIsSpace {c : Char} (h : loopWS c = true) : goIsSpace c = true := by
  unfold loopWS at h
  unfold goIsSpace
  rcases Bool.or_eq_true _ _ |>.mp h with h' | h'
  · rcases Bool.or_eq_true _ _ |>.mp h' with h'' | h''
    · rcases Bool.or_eq_true _ _ |>.mp h'' with h3 | h3 <;> simp [h3]
    · simp [h'']
  · simp [h']

theorem identChar_not_loopWS {c : Char} (h : isIdentChar c = true) :
    loopWS c = false := by
  cases hl : loopWS c
  · rfl
  · exact absurd (loopWS_goIsSpace hl) (by rw [isIdentChar_not_space h]; simp)

theorem space_ne_brace {c : Char} (h : goIsSpace c = true) : (c == '\x7b') = false := by
  rcases goIsSpace_cases h with h' | h' | h' | h' | h' | h' <;> subst h' <;> rfl

/-- Skipping one whitespace character outside an identifier leaves the scan
state unchanged. -/
theorem scan_skip_one {full l acc : List Char} {ac : Bool} {c : Char}
    (hsp : goIsSpace c = true) :
    scanName full (c :: l) acc false ac = scanName full l acc false ac := by
  rcases goIsSpace_cases hsp with h | h | h | h | h | h <;> subst h <;> rfl

/-- Skipping a whitespace run outside an identifier. -/
theorem scan_skip {full acc : List Char} {ac : Bool} (ws : List Char) (l : List Char)
    (hws : ws.all goIsSpace = true) :
    scanName full (ws ++ l) acc false ac = scanName full l acc false ac := by
  induction ws with
  | nil => rfl
  | cons c cs ih =>
    simp only [List.all_cons, Bool.and_eq_true] at hws
    rw [List.cons_append, scan_skip_one hws.1, ih hws.2]

/-- Inside an identifier the scan accumulates identifier characters until
the input ends or a breaker (neither identifier character nor colon)
follows. -/
theorem scan_collect {full : List Char} {ac : Bool} (mid : List Char) (t acc : List Char)
    (hmid : mid.all isIdentChar = true)
    (ht : ∀ c, t.head? = some c → isIdentChar c = false ∧ (c == ':') = false) :
    scanName full (mid ++ t) acc true ac = acc ++ mid := by
  induction mid generalizing acc with
  | nil =>
    cases t with
    | nil => simp [scanName]
    | cons c t' =>
      obtain ⟨h1, h2⟩ := ht c rfl
      simp [scanName, h1, h2]
  | cons m mid' ih =>
    simp only [List.all_cons, Bool.and_eq_true] at hmid
    have hmc : (m == ':') = false := identChar_ne_colon hmid.1
    rw [List.cons_append]
    show scanName full (m :: (mid' ++ t)) acc true ac = acc ++ m :: mid'
    simp only [scanName, hmc, hmid.1, Bool.false_eq_true, if_false, if_true]
    rw [ih _ hmid.2]
    simp

/-- Inside an identifier, a colon discards the accumulator and restarts
in after-colon state (the alias-skipping behaviour). -/
theorem scan_collect_to_colon {full : List Char} {ac : Bool} (mid : List Char)
    (t acc : List Char) (hmid : mid.all isIdentChar = true) :
    scanName full (mid ++ ':' :: t) acc true ac = scanName full t [] false true := by
  induction mid generalizing acc with
  | nil => simp [scanName]
  | cons m mid' ih =>
    simp only [List.all_cons, Bool.and_eq_true] at hmid
    have hmc : (m == ':') = false := identChar_ne_colon hmid.1
    rw [List.cons_append]
    show scanName full (m :: (mid' ++ ':' :: t)) acc true ac = scanName full t [] false true
    simp only [scanName, hmc, hmid.1, Bool.false_eq_true, if_false, if_true]
    exact ih _ hmid.2

/-- Entering an identifier in after-colon state collects it whole. -/
theorem scan_entry_afterColon {full : List Char} (n0 : Char) (nm' t : List Char)
    (h0 : isIdentStart n0 = true) (hnm : nm'.all isIdentChar = true)
    (ht : ∀ c, t.head? = some c → isIdentChar c = false ∧ (c == ':') = false) :
    scanName full (n0 :: (nm' ++ t)) [] false true = n0 :: nm' := by
  have hnc : (n0 == ':') = false := identChar_ne_colon (identStart_identChar h0)
  have hnw : loopWS n0 = false := identChar_not_loopWS (identStart_identChar h0)
  show scanName full (n0 :: (nm' ++ t)) [] false true = n0 :: nm'
  simp only [scanName, hnc, hnw, h0, Bool.false_eq_true, if_false, if_true, Bool.true_or]
  rw [show ([] ++ [n0] : List Char) = [n0] from rfl, scan_collect nm' t [n0] hnm ht]
  simp

/-- Entering an identifier at the very head of the content (no colon seen
yet): the look-back `strings.Contains` check sees the empty prefix. -/
theorem scan_entry_head (n0 : Char) (rest : List Char)
    (h0 : isIdentStart n0 = true) :
    scanName (n0 :: rest) (n0 :: rest) [] false false =
      scanName (n0 :: rest) rest [n0] true false := by
  have hnc : (n0 == ':') = false := identChar_ne_colon (identStart_identChar h0)
  have hnw : loopWS n0 = false := identChar_not_loopWS (identStart_identChar h0)
  have hidx : List.findIdx (· == n0) (n0 :: rest) = 0 := by
    rw [List.findIdx_cons]
    simp
  simp only [scanName, hnc, hnw, h0, Bool.false_eq_true, if_false, if_true, hidx,
    List.take_zero, Bool.false_or]
  rfl

/-- The scan on content of the shape `Name…` (no alias) returns `Name`. -/
theorem scan_noAlias (n0 : Char) (nm' t : List Char)
    (h0 : isIdentStart n0 = true) (hnm : nm'.all isIdentChar = true)
    (ht : ∀ c, t.head? = some c → isIdentChar c = false ∧ (c == ':') = false) :
    scanName (n0 :: (nm' ++ t)) (n0 :: (nm' ++ t)) [] false false = n0 :: nm' := by
  rw [scan_entry_head n0 (nm' ++ t) h0, scan_collect nm' t [n0] hnm ht]
  simp

/-- The scan on content of the shape `alias: Name…` skips the alias and
returns `Name`. -/
theorem scan_alias (a0 : Char) (al' ws2 : List Char) (n0 : Char) (nm' t : List Char)
    (ha0 : isIdentStart a0 = true) (hal : al'.all isIdentChar = true)
    (hws2 : ws2.all goIsSpace = true)
    (h0 : isIdentStart n0 = true) (hnm : nm'.all isIdentChar = true)
    (ht : ∀ c, t.head? = some c → isIdentChar c = false ∧ (c == ':') = false) :
    scanName (a0 :: (al' ++ ':' :: (ws2 ++ (n0 :: (nm' ++ t)))))
        (a0 :: (al' ++ ':' :: (ws2 ++ (n0 :: (nm' ++ t))))) [] false false = n0 :: nm' := by
  rw [scan_entry_head a0 (al' ++ ':' :: (ws2 ++ (n0 :: (nm' ++ t)))) ha0,
    scan_collect_to_colon al' (ws2 ++ (n0 :: (nm' ++ t))) [a0] hal,
    scan_skip ws2 (n0 :: (nm' ++ t)) hws2,
    scan_entry_afterColon n0 nm' t h0 hnm ht]

/-! ## Brace-search lemmas (for C8) -/

theorem findIdx?_append_cons {p : Char → Bool} (a : List Char) (b : Char) (t : List Char)
    (hna : ∀ c ∈ a, p c = false) (hb : p b = true) :
    ∀ i, List.findIdx? p (a ++ b :: t) i = some (i + a.length) := by
  induction a with
  | nil =>
    intro i
    rw [List.nil_append, List.findIdx?_cons, if_pos hb]
    simp
  | cons x xs ih =>
    intro i
    rw [List.cons_append, List.findIdx?_cons,
      if_neg (by rw [hna x (List.mem_cons_self x xs)]; simp)]
    rw [ih (fun c hc => hna c (List.mem_cons_of_mem x hc)) (i + 1)]
    simp only [List.length_cons]
    congr 1
    omega

theorem isPrefixOf_append_self (p t : List Char) : p.isPrefixOf (p ++ t) = true := by
  induction p with
  | nil => simp [List.isPrefixOf]
  | cons a as ih => simp [List.isPrefixOf, ih]

theorem not_prefix_head_ne {a b : Char} (as bs : List Char) (h : (a == b) = false) :
    (a :: as).isPrefixOf (b :: bs) = false := by
  simp [List.isPrefixOf, h]

theorem all_space_ne_brace {ws : List Char} (h : ws.all goIsSpace = true) :
    ∀ c ∈ ws, (c == '\x7b') = false := by
  intro c hc
  exact space_ne_brace (List.all_eq_true.mp h c hc)

theorem openBraceIdx_query (wsA rest : List Char) (hws : wsA.all goIsSpace = true) :
    openBraceIdx ("query ".toList ++ wsA ++ '\x7b' :: rest) = some (6 + wsA.length) := by
  have hql : ("query ".toList ++ wsA ++ '\x7b' :: rest).map Char.toLower
      = "query ".toList ++ (wsA ++ '\x7b' :: rest).map Char.toLower := by
    rw [List.append_assoc, List.map_append]
    rfl
  have h1 : "query ".toList.isPrefixOf
      ("query ".toList ++ (wsA ++ '\x7b' :: rest).map Char.toLower) = true :=
    isPrefixOf_append_self _ _
  have hdrop : ("query ".toList ++ wsA ++ '\x7b' :: rest).drop 6 = wsA ++ '\x7b' :: rest := by
    rw [List.append_assoc, show (6 : Nat) = ("query ".toList).length from rfl, List.drop_left]
  simp only [openBraceIdx, hql, h1, if_true, hdrop]
  rw [findIdx?_append_cons wsA '\x7b' rest (all_space_ne_brace hws) rfl 0]
  simp [Nat.add_comm]

theorem openBraceIdx_mutation (wsA rest : List Char) (hws : wsA.all goIsSpace = true) :
    openBraceIdx ("mutation ".toList ++ wsA ++ '\x7b' :: rest) = some (9 + wsA.length) := by
  have hql : ("mutation ".toList ++ wsA ++ '\x7b' :: rest).map Char.toLower
      = "mutation ".toList ++ (wsA ++ '\x7b' :: rest).map Char.toLower := by
    rw [List.append_assoc, List.map_append]
    rfl
  have h1 : "query ".toList.isPrefixOf
      ("mutation ".toList ++ (wsA ++ '\x7b' :: rest).map Char.toLower) = false := by
    rw [show "mutation ".toList ++ (wsA ++ '\x7b' :: rest).map Char.toLower
        = 'm' :: ("utation ".toList ++ (wsA ++ '\x7b' :: rest).map Char.toLower) from rfl,
      show "query ".toList = 'q' :: "uery ".toList from rfl]
    exact not_prefix_head_ne _ _ rfl
  have h2 : "mutation ".toList.isPrefixOf
      ("mutation ".toList ++ (wsA ++ '\x7b' :: rest).map Char.toLower) = true :=
    isPrefixOf_append_self _ _
  have hdrop : ("mutation ".toList ++ wsA ++ '\x7b' :: rest).drop 9 = wsA ++ '\x7b' :: rest := by
    rw [List.append_assoc, show (9 : Nat) = ("mutation ".toList).length from rfl, List.drop_left]
  simp only [openBraceIdx, hql, h1, h2, Bool.false_eq_true, if_false, if_true, hdrop]
  rw [findIdx?_append_cons wsA '\x7b' rest (all_space_ne_brace hws) rfl 0]
  simp [Nat.add_comm]

theorem openBraceIdx_subscription (wsA rest : List Char) (hws : wsA.all goIsSpace = true) :
    openBraceIdx ("subscription ".toList ++ wsA ++ '\x7b' :: rest)
      = some (13 + wsA.length) := by
  have hql : ("subscription ".toList ++ wsA ++ '\x7b' :: rest).map Char.toLower
      = "subscription ".toList ++ (wsA ++ '\x7b' :: rest).map Char.toLower := by
    rw [List.append_assoc, List.map_append]
    rfl
  have h1 : "query ".toList.isPrefixOf
      ("subscription ".toList ++ (wsA ++ '\x7b' :: rest).map Char.toLower) = false := by
    rw [show "subscription ".toList ++ (wsA ++ '\x7b' :: rest).map Char.toLower
        = 's' :: ("ubscription ".toList ++ (wsA ++ '\x7b' :: rest).map Char.toLower) from rfl,
      show "query ".toList = 'q' :: "uery ".toList from rfl]
    exact not_prefix_head_ne _ _ rfl
  have h2 : "mutation ".toList.isPrefixOf
      ("subscription ".toList ++ (wsA ++ '\x7b' :: rest).map Char.toLower) = false := by
    rw [show "subscription ".toList ++ (wsA ++ '\x7b' :: rest).map Char.toLower
        = 's' :: ("ubscription ".toList ++ (wsA ++ '\x7b' :: rest).map Char.toLower) from rfl,
      show "mutation ".toList = 'm' :: "utation ".toList from rfl]
    exact not_prefix_head_ne _ _ rfl
  have h3 : "subscription ".toList.isPrefixOf
      ("subscription ".toList ++ (wsA ++ '\x7b' :: rest).map Char.toLower) = true :=
    isPrefixOf_append_self _ _
  have hdrop : ("subscription ".toList ++ wsA ++ '\x7b' :: rest).drop 12
      = (' ' :: wsA) ++ '\x7b' :: rest := by
    rw [List.append_assoc]
    rw [show "subscription ".toList ++ (wsA ++ '\x7b' :: rest)
        = "subscription".toList ++ (' ' :: (wsA ++ '\x7b' :: rest)) from rfl]
    rw [show (12 : Nat) = ("subscription".toList).length from rfl, List.drop_left]
    rfl
  simp only [openBraceIdx, hql, h1, h2, h3, Bool.false_eq_true, if_false, if_true, hdrop]
  rw [findIdx?_append_cons (' ' :: wsA) '\x7b' rest
    (all_space_ne_brace (by simp [hws, goIsSpace])) rfl 0]
  simp only [Option.map_some', List.length_cons]
  congr 1
  omega

theorem openBraceIdx_noKeyword (rest : List Char) :
    openBraceIdx ('\x7b' :: rest) = some 0 := by
  have h1 : "query ".toList.isPrefixOf (('\x7b' :: rest).map Char.toLower) = false := by
    rw [show ('\x7b' :: rest).map Char.toLower
        = '\x7b' :: rest.map Char.toLower from rfl,
      show "query ".toList = 'q' :: "uery ".toList from rfl]
    exact not_prefix_head_ne _ _ rfl
  have h2 : "mutation ".toList.isPrefixOf (('\x7b' :: rest).map Char.toLower) = false := by
    rw [show ('\x7b' :: rest).map Char.toLower
        = '\x7b' :: rest.map Char.toLower from rfl,
      show "mutation ".toList = 'm' :: "utation ".toList from rfl]
    exact not_prefix_head_ne _ _ rfl
  have h3 : "subscription ".toList.isPrefixOf (('\x7b' :: rest).map Char.toLower) = false := by
    rw [show ('\x7b' :: rest).map Char.toLower
        = '\x7b' :: rest.map Char.toLower from rfl,
      show "subscription ".toList = 's' :: "ubscription ".toList from rfl]
    exact not_prefix_head_ne _ _ rfl
  simp only [openBraceIdx, h1, h2, h3, Bool.false_eq_true, if_false]
  rfl

theorem revhead_nonspace {n0 : Char} (nm' rest tail : List Char)
    (h0 : isIdentStart n0 = true) (hnm : nm'.all isIdentChar = true)
    (hrl : ∀ c, rest.reverse.head? = some c → goIsSpace c = false) :
    ∀ c, (rest.reverse ++ (nm'.reverse ++ (n0 :: tail))).head? = some c →
      goIsSpace c = false := by
  intro c hc
  cases hr : rest.reverse with
  | cons y ys =>
    rw [hr, List.cons_append] at hc
    simp only [List.head?_cons, Option.some.injEq] at hc
    subst hc
    exact hrl y (by rw [hr]; rfl)
  | nil =>
    rw [hr, List.nil_append] at hc
    cases hn : nm'.reverse with
    | cons y ys =>
      rw [hn, List.cons_append] at hc
      simp only [List.head?_cons, Option.some.injEq] at hc
      subst hc
      have hy : y ∈ nm' := by
        rw [← List.mem_reverse, hn]
        exact List.mem_cons_self _ _
      exact isIdentChar_not_space (List.all_eq_true.mp hnm y hy)
    | nil =>
      rw [hn, List.nil_append] at hc
      simp only [List.head?_cons, Option.some.injEq] at hc
      subst hc
      exact isIdentChar_not_space (identStart_identChar h0)

/-- Assembly of `extractCollectionNameFromQuery` from characterisations of
its three phases (trim fixed point, brace position, scan result). -/
theorem extract_of_parts (L : List Char) (i : Nat) (name : List Char)
    (hne : ¬ (String.mk L = "")) (htrim : trimSpace L = L)
    (hbrace : openBraceIdx L = some i)
    (hname : trimSpace (scanName (trimSpace (L.drop (i + 1)))
      (trimSpace (L.drop (i + 1))) [] false false) = name)
    (hnn : name ≠ []) :
    extractCollectionNameFromQuery (String.mk L) = .ok (String.mk name) := by
  have htrim' : trimSpace (String.mk L).toList = L := htrim
  have hempty : name.isEmpty = false := by
    cases name with
    | nil => exact absurd rfl hnn
    | cons a l => rfl
  unfold extractCollectionNameFromQuery
  rw [if_neg hne]
  simp only [htrim', hbrace, hname, hempty, Bool.false_eq_true, if_false]

/-- C8: for every well-formed query of the shape
`[query|mutation|subscription ]{ Name(...) { ... } }` or
`[kw ]{ alias: Name(...) { ... } }` — an optional operation keyword,
whitespace, the opening brace, whitespace, an optional `alias:` with
whitespace, the identifier `Name`, and an arbitrary remainder that starts
with a non-identifier, non-colon character and does not end in whitespace —
`extractCollectionNameFromQuery` returns `Name` exactly, with its letter
case preserved, skipping the alias (text accumulated before a colon is
discarded and collection restarts after it). -/
theorem C8_extract_returns_name (kw wsA wsB aliasPart : List Char) (n0 : Char)
    (nm' rest : List Char)
    (hkw : kw = "query ".toList ∨ kw = "mutation ".toList ∨
      kw = "subscription ".toList ∨ kw = [])
    (hkwA : kw = [] → wsA = [])
    (hwsA : wsA.all goIsSpace = true) (hwsB : wsB.all goIsSpace = true)
    (halias : aliasPart = [] ∨ ∃ a0 al' ws2, aliasPart = a0 :: (al' ++ ':' :: ws2) ∧
      isIdentStart a0 = true ∧ al'.all isIdentChar = true ∧ ws2.all goIsSpace = true)
    (h0 : isIdentStart n0 = true) (hnm : nm'.all isIdentChar = true)
    (hrh : ∀ c, rest.head? = some c → isIdentChar c = false ∧ (c == ':') = false)
    (hrl : ∀ c, rest.reverse.head? = some c → goIsSpace c = false) :
    extractCollectionNameFromQuery
        (String.mk (kw ++ wsA ++ '\x7b' :: (wsB ++ (aliasPart ++ (n0 :: (nm' ++ rest))))))
      = .ok (String.mk (n0 :: nm')) := by
  -- the head of the body after the brace is an identifier character
  have hbodyhead : ∀ c, (aliasPart ++ (n0 :: (nm' ++ rest))).head? = some c →
      goIsSpace c = false := by
    intro c hc
    rcases halias with rfl | ⟨a0, al', ws2, rfl, ha0, hal, hws2⟩
    · rw [List.nil_append] at hc
      simp only [List.head?_cons, Option.some.injEq] at hc
      subst hc
      exact isIdentChar_not_space (identStart_identChar h0)
    · rw [List.cons_append] at hc
      simp only [List.head?_cons, Option.some.injEq] at hc
      subst hc
      exact isIdentChar_not_space (identStart_identChar ha0)
  -- the last character of the body is an identifier character or rest's last
  have hbodyrev : ∀ c, (aliasPart ++ (n0 :: (nm' ++ rest))).reverse.head? = some c →
      goIsSpace c = false := by
    intro c hc
    have hre : (aliasPart ++ (n0 :: (nm' ++ rest))).reverse
        = rest.reverse ++ (nm'.reverse ++ (n0 :: aliasPart.reverse)) := by
      simp
    rw [hre] at hc
    exact revhead_nonspace nm' rest aliasPart.reverse h0 hnm hrl c hc
  -- the scan returns the name in both alias shapes
  have hscan : scanName (aliasPart ++ (n0 :: (nm' ++ rest)))
      (aliasPart ++ (n0 :: (nm' ++ rest))) [] false false = n0 :: nm' := by
    rcases halias with rfl | ⟨a0, al', ws2, rfl, ha0, hal, hws2⟩
    · rw [List.nil_append]
      exact scan_noAlias n0 nm' rest h0 hnm hrh
    · rw [show (a0 :: (al' ++ ':' :: ws2)) ++ (n0 :: (nm' ++ rest))
          = a0 :: (al' ++ ':' :: (ws2 ++ (n0 :: (nm' ++ rest)))) from by simp]
      exact scan_alias a0 al' ws2 n0 nm' rest ha0 hal hws2 h0 hnm hrh
  -- trimming the returned name is the identity
  have hnametrim : trimSpace (n0 :: nm') = n0 :: nm' := by
    apply trimSpace_eq_self
    · intro c hc
      simp only [List.head?_cons, Option.some.injEq] at hc
      subst hc
      exact isIdentChar_not_space (identStart_identChar h0)
    · intro c hc
      have hre : (n0 :: nm').reverse = [].reverse ++ (nm'.reverse ++ (n0 :: [])) := by simp
      rw [hre] at hc
      exact revhead_nonspace nm' [] [] h0 hnm (by intro c hc'; cases hc') c hc
  -- trimming the content after the brace yields the body
  have hcontent : trimSpace (wsB ++ (aliasPart ++ (n0 :: (nm' ++ rest))))
      = aliasPart ++ (n0 :: (nm' ++ rest)) :=
    trimSpace_append_left hwsB hbodyhead hbodyrev
  have hnn : (n0 :: nm') ≠ [] := by simp
  -- nonemptiness of the whole query
  have hne : ∀ L' : List Char,
      ¬ (String.mk (L' ++ '\x7b' :: (wsB ++ (aliasPart ++ (n0 :: (nm' ++ rest))))) = "") := by
    intro L' h
    have h2 : L' ++ '\x7b' :: (wsB ++ (aliasPart ++ (n0 :: (nm' ++ rest)))) = [] :=
      congrArg String.data h
    simp at h2
  -- the reverse-head of the whole query is never whitespace
  have hLrev : ∀ tail : List Char,
      ∀ c, (rest.reverse ++ (nm'.reverse ++ (n0 :: tail))).head? = some c →
        goIsSpace c = false :=
    fun tail => revhead_nonspace nm' rest tail h0 hnm hrl
  rcases hkw with rfl | rfl | rfl | rfl
  · -- keyword "query "
    have hLh : (("query ".toList ++ wsA) ++
        '\x7b' :: (wsB ++ (aliasPart ++ (n0 :: (nm' ++ rest))))).head? = some 'q' := rfl
    have htrimL : trimSpace ("query ".toList ++ wsA ++
        '\x7b' :: (wsB ++ (aliasPart ++ (n0 :: (nm' ++ rest)))))
        = "query ".toList ++ wsA ++ '\x7b' :: (wsB ++ (aliasPart ++ (n0 :: (nm' ++ rest)))) := by
      apply trimSpace_eq_self
      · intro c hc
        rw [hLh] at hc
        obtain rfl : c = 'q' := (Option.some.inj hc).symm
        rfl
      · intro c hc
        have hre : (("query ".toList ++ wsA) ++
            '\x7b' :: (wsB ++ (aliasPart ++ (n0 :: (nm' ++ rest))))).reverse
            = rest.reverse ++ (nm'.reverse ++ (n0 :: (aliasPart.reverse ++ (wsB.reverse ++
                ('\x7b' :: (wsA.reverse ++ ("query ".toList).reverse)))))) := by
          simp
        rw [hre] at hc
        exact hLrev _ c hc
    have hdropc : (("query ".toList ++ wsA) ++
        '\x7b' :: (wsB ++ (aliasPart ++ (n0 :: (nm' ++ rest))))).drop (6 + wsA.length + 1)
        = wsB ++ (aliasPart ++ (n0 :: (nm' ++ rest))) := by
      rw [show ("query ".toList ++ wsA) ++
          '\x7b' :: (wsB ++ (aliasPart ++ (n0 :: (nm' ++ rest))))
          = (("query ".toList ++ wsA) ++ ['\x7b']) ++
            (wsB ++ (aliasPart ++ (n0 :: (nm' ++ rest)))) from by simp]
      rw [show 6 + wsA.length + 1 = (("query ".toList ++ wsA) ++ ['\x7b']).length from by
        simp [List.length_append, show ("query ".toList).length = 6 from rfl]; omega]
      exact List.drop_left _ _
    apply extract_of_parts _ (6 + wsA.length) _ (hne ("query ".toList ++ wsA)) htrimL
      (openBraceIdx_query wsA _ hwsA) ?_ hnn
    rw [hdropc, hcontent, hscan, hnametrim]
  · -- keyword "mutation "
    have hLh : (("mutation ".toList ++ wsA) ++
        '\x7b' :: (wsB ++ (aliasPart ++ (n0 :: (nm' ++ rest))))).head? = some 'm' := rfl
    have htrimL : trimSpace ("mutation ".toList ++ wsA ++
        '\x7b' :: (wsB ++ (aliasPart ++ (n0 :: (nm' ++ rest)))))
        = "mutation ".toList ++ wsA ++ '\x7b' :: (wsB ++ (aliasPart ++ (n0 :: (nm' ++ rest)))) := by
      apply trimSpace_eq_self
      · intro c hc
        rw [hLh] at hc
        obtain rfl : c = 'm' := (Option.some.inj hc).symm
        rfl
      · intro c hc
        have hre : (("mutation ".toList ++ wsA) ++
            '\x7b' :: (wsB ++ (aliasPart ++ (n0 :: (nm' ++ rest))))).reverse
            = rest.reverse ++ (nm'.reverse ++ (n0 :: (aliasPart.reverse ++ (wsB.reverse ++
                ('\x7b' :: (wsA.reverse ++ ("mutation ".toList).reverse)))))) := by
          simp
        rw [hre] at hc
        exact hLrev _ c hc
    have hdropc : (("mutation ".toList ++ wsA) ++
        '\x7b' :: (wsB ++ (aliasPart ++ (n0 :: (nm' ++ rest))))).drop (9 + wsA.length + 1)
        = wsB ++ (aliasPart ++ (n0 :: (nm' ++ rest))) := by
      rw [show ("mutation ".toList ++ wsA) ++
          '\x7b' :: (wsB ++ (aliasPart ++ (n0 :: (nm' ++ rest))))
          = (("mutation ".toList ++ wsA) ++ ['\x7b']) ++
            (wsB ++ (aliasPart ++ (n0 :: (nm' ++ rest)))) from by simp]
      rw [show 9 + wsA.length + 1 = (("mutation ".toList ++ wsA) ++ ['\x7b']).length from by
        simp [List.length_append, show ("mutation ".toList).length = 9 from rfl]; omega]
      exact List.drop_left _ _
    apply extract_of_parts _ (9 + wsA.length) _ (hne ("mutation ".toList ++ wsA)) htrimL
      (openBraceIdx_mutation wsA _ hwsA) ?_ hnn
    rw [hdropc, hcontent, hscan, hnametrim]
  · -- keyword "subscription "
    have hLh : (("subscription ".toList ++ wsA) ++
        '\x7b' :: (wsB ++ (aliasPart ++ (n0 :: (nm' ++ rest))))).head? = some 's' := rfl
    have htrimL : trimSpace ("subscription ".toList ++ wsA ++
        '\x7b' :: (wsB ++ (aliasPart ++ (n0 :: (nm' ++ rest)))))
        = "subscription ".toList ++ wsA ++
          '\x7b' :: (wsB ++ (aliasPart ++ (n0 :: (nm' ++ rest)))) := by
      apply trimSpace_eq_self
      · intro c hc
        rw [hLh] at hc
        obtain rfl : c = 's' := (Option.some.inj hc).symm
        rfl
      · intro c hc
        have hre : (("subscription ".toList ++ wsA) ++
            '\x7b' :: (wsB ++ (aliasPart ++ (n0 :: (nm' ++ rest))))).reverse
            = rest.reverse ++ (nm'.reverse ++ (n0 :: (aliasPart.reverse ++ (wsB.reverse ++
                ('\x7b' :: (wsA.reverse ++ ("subscription ".toList).reverse)))))) := by
          simp
        rw [hre] at hc
        exact hLrev _ c hc
    have hdropc : (("subscription ".toList ++ wsA) ++
        '\x7b' :: (wsB ++ (aliasPart ++ (n0 :: (nm' ++ rest))))).drop (13 + wsA.length + 1)
        = wsB ++ (aliasPart ++ (n0 :: (nm' ++ rest))) := by
      rw [show ("subscription ".toList ++ wsA) ++
          '\x7b' :: (wsB ++ (aliasPart ++ (n0 :: (nm' ++ rest))))
          = (("subscription ".toList ++ wsA) ++ ['\x7b']) ++
            (wsB ++ (aliasPart ++ (n0 :: (nm' ++ rest)))) from by simp]
      rw [show 13 + wsA.length + 1 = (("subscription ".toList ++ wsA) ++ ['\x7b']).length from by
        simp [List.length_append, show ("subscription ".toList).length = 13 from rfl]; omega]
      exact List.drop_left _ _
    apply extract_of_parts _ (13 + wsA.length) _ (hne ("subscription ".toList ++ wsA)) htrimL
      (openBraceIdx_subscription wsA _ hwsA) ?_ hnn
    rw [hdropc, hcontent, hscan, hnametrim]
  · -- no keyword: the query starts at the brace
    obtain rfl : wsA = [] := hkwA rfl
    rw [show ([] : List Char) ++ [] ++
        '\x7b' :: (wsB ++ (aliasPart ++ (n0 :: (nm' ++ rest))))
        = '\x7b' :: (wsB ++ (aliasPart ++ (n0 :: (nm' ++ rest)))) from rfl]
    have htrimL : trimSpace ('\x7b' :: (wsB ++ (aliasPart ++ (n0 :: (nm' ++ rest)))))
        = '\x7b' :: (wsB ++ (aliasPart ++ (n0 :: (nm' ++ rest)))) := by
      apply trimSpace_eq_self
      · intro c hc
        simp only [List.head?_cons, Option.some.injEq] at hc
        subst hc
        rfl
      · intro c hc
        have hre : ('\x7b' :: (wsB ++ (aliasPart ++ (n0 :: (nm' ++ rest))))).reverse
            = rest.reverse ++ (nm'.reverse ++ (n0 :: (aliasPart.reverse ++ (wsB.reverse ++
                ['\x7b'])))) := by
          simp
        rw [hre] at hc
        exact hLrev _ c hc
    apply extract_of_parts _ 0 _ (hne []) htrimL (openBraceIdx_noKeyword _) ?_ hnn
    rw [show (([] : List Char) ++ '\x7b' :: (wsB ++ (aliasPart ++ (n0 :: (nm' ++ rest))))).drop (0 + 1)
        = wsB ++ (aliasPart ++ (n0 :: (nm' ++ rest))) from rfl]
    rw [hcontent, hscan, hnametrim]

/-- Witness for C8 at a concrete aliased keyword query:
`query { myAlias: User(limit: 5) { name } }` yields `User`. -/
theorem C8_witness :
    extractCollectionNameFromQuery
        (String.mk ("query ".toList ++ [] ++ '\x7b' :: ([' '] ++
          (('m' :: ("yAlias".toList ++ ':' :: [' '])) ++
            ('U' :: ("ser".toList ++ "(limit: 5) \x7b name \x7d \x7d".toList))))))
      = .ok (String.mk ('U' :: "ser".toList)) := by
  apply C8_extract_returns_name "query ".toList [] [' ']
    ('m' :: ("yAlias".toList ++ ':' :: [' ']))
    'U' "ser".toList "(limit: 5) \x7b name \x7d \x7d".toList
  · exact Or.inl rfl
  · intro h
    exact absurd h (by decide)
  · rfl
  · rfl
  · exact Or.inr ⟨'m', "yAlias".toList, [' '], by decide, by decide, by decide, by decide⟩
  · decide
  · decide
  · intro c hc
    have h := Option.some.inj
      ((show ("(limit: 5) \x7b name \x7d \x7d".toList).head? = some '(' from rfl).symm.trans hc)
    subst h
    exact ⟨by decide, by decide⟩
  · intro c hc
    have h := Option.some.inj
      ((show ("(limit: 5) \x7b name \x7d \x7d".toList).reverse.head? = some '\x7d' from by
        decide).symm.trans hc)
    subst h
    decide

end AppSdk


